import Mathlib

/-!
Verification of the balanced-brace JSON recovery core of the
Smart_Cities_Banorte repository.

The embedded code:
* `jsonLoads` — Python's strict `json.loads` (default flags) on a list of
  characters: RFC-8259 grammar plus CPython's `NaN`/`Infinity`/`-Infinity`
  constants, whitespace `' '`, `'\t'`, `'\n'`, `'\r'`, strict rejection of
  raw control characters inside strings.  Numbers are kept as their matched
  literal text (`JVal.jnum lit`): every claim below compares values coming
  from the same literal or from a canonical serialisation, where Python's
  float reading agrees with literal identity.
* `Analyzer.clean_json_string` — `src/analyzer.py` lines 21–46.
* `Scraper.clean_json_string` — `src/scraper_ia_pdf_a_json.py` lines 105–134
  (this one raises `json.JSONDecodeError`, modelled as `Except.error`).
* `to_number_simple` — `src/cleaner.py` lines 4–21; Python floats are
  modelled as rationals, exact for every value the claims mention.
-/

namespace SCB

mutual
/-- JSON values as produced by `json.loads`.  Objects are insertion-ordered
association lists (CPython dicts preserve insertion order); numbers keep the
literal text matched by the scanner. -/
inductive JVal : Type where
  | jnull : JVal
  | jbool : Bool → JVal
  | jnum : String → JVal
  | jstr : String → JVal
  | jarr : JArr → JVal
  | jobj : JObj → JVal
  deriving DecidableEq, Repr
inductive JArr : Type where
  | anil : JArr
  | acons : JVal → JArr → JArr
  deriving DecidableEq, Repr
inductive JObj : Type where
  | onil : JObj
  | ocons : String → JVal → JObj → JObj
  deriving DecidableEq, Repr
end

/-- Whether a parsed value is a JSON object (a mapping). -/
def JVal.isObj : JVal → Bool
  | .jobj _ => true
  | _ => false

/-- JSON insignificant whitespace, as in CPython's decoder. -/
def jsonWs (c : Char) : Bool :=
  c = ' ' || c = '\t' || c = '\n' || c = '\r'

/-- Skip insignificant whitespace. -/
def skipWs (cs : List Char) : List Char := cs.dropWhile jsonWs

/-- Value of a hexadecimal digit. -/
def hexVal (c : Char) : Option Nat :=
  if c.isDigit then some (c.toNat - 48)
  else if 'a' ≤ c && c ≤ 'f' then some (c.toNat - 87)
  else if 'A' ≤ c && c ≤ 'F' then some (c.toNat - 55)
  else none

/-- Translation of a one-character escape; `none` for an invalid escape and
for `u`, which is handled separately. -/
def escTrans (e : Char) : Option Char :=
  if e = '"' then some '"'
  else if e = '\\' then some '\\'
  else if e = '/' then some '/'
  else if e = 'b' then some (Char.ofNat 8)
  else if e = 'f' then some (Char.ofNat 12)
  else if e = 'n' then some '\n'
  else if e = 'r' then some '\r'
  else if e = 't' then some '\t'
  else none

/-- Decoding of one escape sequence (the text after the backslash): the
decoded character and the remainder.  `\uXXXX` becomes the character with
that code.  (CPython combines a high/low `\u` surrogate pair into one
character and keeps a lone surrogate as a lone code unit, which
`Char.ofNat` sends to NUL; no claim touches either corner.) -/
def escDecode (cs : List Char) : Option (Char × List Char) :=
  if cs.head? = some 'u' then
    (match cs.tail with
     | h1 :: h2 :: h3 :: h4 :: cs4 =>
       (match hexVal h1, hexVal h2, hexVal h3, hexVal h4 with
        | some a, some b, some d, some e =>
          some (Char.ofNat (((a * 16 + b) * 16 + d) * 16 + e), cs4)
        | _, _, _, _ => none)
     | _ => none)
  else
    match cs with
    | e :: cs2 => (escTrans e).map (fun d => (d, cs2))
    | [] => none

/-- Fuel-driven body of `strBody`; a step consumes at least one character,
so `length + 1` fuel always suffices. -/
def strBodyGo : Nat → List Char → Option (List Char × List Char)
  | 0, _ => none
  | _ + 1, [] => none
  | f + 1, c :: cs =>
    if c = '"' then some ([], cs)
    else if c = '\\' then
      match escDecode cs with
      | some p => (strBodyGo f p.2).map (fun q => (p.1 :: q.1, q.2))
      | none => none
    else if c.toNat < 0x20 then none
    else (strBodyGo f cs).map (fun q => (c :: q.1, q.2))

/-- Body of a JSON string after the opening quote, CPython `scanstring` with
`strict=True`: raw control characters below `0x20` are rejected, escapes are
decoded.  Returns the decoded characters and the text after the closing
quote. -/
def strBody (cs : List Char) : Option (List Char × List Char) :=
  strBodyGo (cs.length + 1) cs

/-- Longest digit prefix and the remainder. -/
def digitsTake (cs : List Char) : List Char × List Char :=
  (cs.takeWhile Char.isDigit, cs.dropWhile Char.isDigit)

/-- Integer part of CPython's number regex: `0` or a nonzero digit followed
by digits. -/
def numIntPart : List Char → Option (List Char × List Char)
  | [] => none
  | c :: cs =>
    if c = '0' then some (['0'], cs)
    else if c.isDigit then
      let p := digitsTake cs
      some (c :: p.1, p.2)
    else none

/-- Optional fraction `(\.\d+)?`: consumed only when a digit follows the dot. -/
def numFracPart (cs : List Char) : List Char × List Char :=
  if cs.head? = some '.' then
    (if (digitsTake cs.tail).1 = [] then ([], cs)
     else ('.' :: (digitsTake cs.tail).1, (digitsTake cs.tail).2))
  else ([], cs)

/-- Optional exponent `([eE][-+]?\d+)?`: consumed only when digits follow. -/
def numExpPart (cs : List Char) : List Char × List Char :=
  match cs with
  | e :: cs2 =>
    if e = 'e' || e = 'E' then
      let sp : List Char × List Char :=
        match cs2 with
        | s :: cs3 => if s = '+' || s = '-' then ([s], cs3) else ([], cs2)
        | [] => ([], cs2)
      let p := digitsTake sp.2
      if p.1 = [] then ([], cs) else (e :: sp.1 ++ p.1, p.2)
    else ([], cs)
  | [] => ([], cs)

/-- CPython's `NUMBER_RE` anchored at the start of the input: the matched
literal and the remainder. -/
def numMatch (cs : List Char) : Option (List Char × List Char) :=
  let sp : List Char × List Char :=
    if cs.head? = some '-' then (['-'], cs.tail) else ([], cs)
  match numIntPart sp.2 with
  | none => none
  | some (ip, cs2) =>
    let fp := numFracPart cs2
    let ep := numExpPart fp.2
    some (sp.1 ++ ip ++ fp.1 ++ ep.1, ep.2)

mutual
/-- One JSON value at the head of the input, CPython `scan_once`.  The fuel
only bounds `{`/`[` nesting and member counts; each recursive call consumes
at least one character, so `length + 1` fuel always suffices.  (On `[]`
every branch falls through to `numMatch [] = none`.) -/
def parseV : Nat → List Char → Option (JVal × List Char)
  | 0, _ => none
  | f + 1, cs =>
    if cs.head? = some '{' then
      (if (skipWs cs.tail).head? = some '}' then some (.jobj .onil, (skipWs cs.tail).tail)
       else (parseMems f (skipWs cs.tail)).map (fun p => (JVal.jobj p.1, p.2)))
    else if cs.head? = some '[' then
      (if (skipWs cs.tail).head? = some ']' then some (.jarr .anil, (skipWs cs.tail).tail)
       else (parseElems f (skipWs cs.tail)).map (fun p => (JVal.jarr p.1, p.2)))
    else if cs.head? = some '"' then
      (strBody cs.tail).map (fun p => (JVal.jstr ⟨p.1⟩, p.2))
    else if "true".data.isPrefixOf cs then some (.jbool true, cs.drop 4)
    else if "false".data.isPrefixOf cs then some (.jbool false, cs.drop 5)
    else if "null".data.isPrefixOf cs then some (.jnull, cs.drop 4)
    else if "NaN".data.isPrefixOf cs then some (.jnum "NaN", cs.drop 3)
    else if "Infinity".data.isPrefixOf cs then some (.jnum "Infinity", cs.drop 8)
    else if "-Infinity".data.isPrefixOf cs then some (.jnum "-Infinity", cs.drop 9)
    else (numMatch cs).map (fun p => (JVal.jnum ⟨p.1⟩, p.2))

/-- Members of an object after at least one is known to follow, CPython
`JSONObject`: a quoted key, `:`, a value, then `,` and further members or the
closing `}` (which is consumed).  No trailing comma is accepted. -/
def parseMems : Nat → List Char → Option (JObj × List Char)
  | 0, _ => none
  | f + 1, cs =>
    if cs.head? = some '"' then
      (match strBody cs.tail with
       | none => none
       | some (k, r1) =>
         if (skipWs r1).head? = some ':' then
           (match parseV f (skipWs (skipWs r1).tail) with
            | none => none
            | some (v, r3) =>
              if (skipWs r3).head? = some ',' then
                (parseMems f (skipWs (skipWs r3).tail)).map
                  (fun p => (JObj.ocons ⟨k⟩ v p.1, p.2))
              else if (skipWs r3).head? = some '}' then
                some (.ocons ⟨k⟩ v .onil, (skipWs r3).tail)
              else none)
         else none)
    else none

/-- Elements of a non-empty array, CPython `JSONArray`: a value, then `,` and
further elements or the closing `]` (which is consumed). -/
def parseElems : Nat → List Char → Option (JArr × List Char)
  | 0, _ => none
  | f + 1, cs =>
    match parseV f cs with
    | none => none
    | some (v, r1) =>
      if (skipWs r1).head? = some ',' then
        (parseElems f (skipWs (skipWs r1).tail)).map
          (fun p => (JArr.acons v p.1, p.2))
      else if (skipWs r1).head? = some ']' then some (.acons v .anil, (skipWs r1).tail)
      else none
end

/-- Python `json.loads`: skip leading whitespace, read one value, demand that
only whitespace follows; `none` is a raised `json.JSONDecodeError`. -/
def jsonLoads (cs0 : List Char) : Option JVal :=
  let cs := skipWs cs0
  match parseV (cs0.length + 1) cs with
  | some (v, rest) => if skipWs rest = [] then some v else none
  | none => none

/-- `json.loads` with the raised `json.JSONDecodeError` made explicit. -/
def loadsE (cs : List Char) : Except String JVal :=
  match jsonLoads cs with
  | some v => .ok v
  | none => .error "JSONDecodeError"

/-- Python `str.strip()` / regex `\s`, restricted to the ASCII whitespace
characters (space, tab, newline, carriage return, vertical tab, form feed);
both Python notions agree with this set on ASCII text, and every input in
the claims is covered by it. -/
def pyWs (c : Char) : Bool :=
  c = ' ' || c = '\t' || c = '\n' || c = '\r' ||
    c = Char.ofNat 11 || c = Char.ofNat 12

/-- Python `str.strip()`: drop leading and trailing whitespace. -/
def pyStrip (cs : List Char) : List Char :=
  ((cs.dropWhile pyWs).reverse.dropWhile pyWs).reverse

/-- The candidate substring `s[start:i+1]` of the scan loops. -/
def sliceTo (orig : List Char) (s0 i : Nat) : List Char :=
  (orig.drop s0).take (i + 1 - s0)

namespace Analyzer

/-- Fuel-driven body of `stripFences`; one unit of fuel per step, and a step
consumes at least one character, so `length` fuel always suffices. -/
def stripFencesGo : Nat → List Char → List Char
  | 0, l => l
  | _ + 1, [] => []
  | f + 1, c :: cs =>
    if ("```json".data).isPrefixOf (c :: cs) then stripFencesGo f ((c :: cs).drop 7)
    else if ("```".data).isPrefixOf (c :: cs) then stripFencesGo f ((c :: cs).drop 3)
    else c :: stripFencesGo f cs

/-- Line 25 of `analyzer.py`: `re.sub(r"```json|```", "", json_str)` —
leftmost scan, the longer alternative preferred, non-overlapping matches,
empty replacement. -/
def stripFences (cs : List Char) : List Char := stripFencesGo cs.length cs

/-- The `for i, ch in enumerate(s)` loop of `analyzer.py` lines 28-41:
`i` is the index of the current character, `start`/`depth` the loop state.
`some v` is the loop's `return json.loads(candidate)` on a successful parse;
`none` means the loop ran out of characters. -/
def scanGo (orig : List Char) : List Char → Nat → Option Nat → Int → Option JVal
  | [], _, _, _ => none
  | c :: cs, i, start, depth =>
    if c = '{' then
      scanGo orig cs (i + 1) (if start = none then some i else start) (depth + 1)
    else if c = '}' then
      match start with
      | some s0 =>
        if depth - 1 = 0 then
          match jsonLoads (sliceTo orig s0 i) with
          | some v => some v
          | none => scanGo orig cs (i + 1) none 0
        else scanGo orig cs (i + 1) (some s0) (depth - 1)
      | none => scanGo orig cs (i + 1) none (depth - 1)
    else scanGo orig cs (i + 1) start depth

/-- `clean_json_string` of `analyzer.py` lines 21-46: empty-input guard,
fence stripping and `strip()`, the brace scan, then the whole-text fallback
parse; every failure path returns `None`. -/
def clean_json_string (s : String) : Option JVal :=
  if s.data = [] then none
  else
    let t := pyStrip (stripFences s.data)
    match scanGo t t 0 none 0 with
    | some v => some v
    | none => jsonLoads t

/-- The sequence of candidate substrings the scan would offer to
`json.loads`, in order, under the loop's reset-on-failure dynamics.  The
actual run attempts a prefix of this list, stopping at the first candidate
that parses. -/
def candGo (orig : List Char) : List Char → Nat → Option Nat → Int → List (List Char)
  | [], _, _, _ => []
  | c :: cs, i, start, depth =>
    if c = '{' then
      candGo orig cs (i + 1) (if start = none then some i else start) (depth + 1)
    else if c = '}' then
      match start with
      | some s0 =>
        if depth - 1 = 0 then sliceTo orig s0 i :: candGo orig cs (i + 1) none 0
        else candGo orig cs (i + 1) (some s0) (depth - 1)
      | none => candGo orig cs (i + 1) none (depth - 1)
    else candGo orig cs (i + 1) start depth

/-- Candidate spans of a stripped text, in order of attempt. -/
def candidates (cs : List Char) : List (List Char) := candGo cs cs 0 none 0

/-- `clean_json_string` with Python exceptions made explicit: `.error` would
be an exception escaping to the caller.  Both `json.loads` call sites of
`analyzer.py` sit inside `try/except` blocks whose handlers continue the
scan (lines 37-41) or return `None` (lines 43-46), which is why no `.error`
is ever produced — the content of claim C6 for this file. -/
def scanGoE (orig : List Char) : List Char → Nat → Option Nat → Int → Except String (Option JVal)
  | [], _, _, _ => .ok none
  | c :: cs, i, start, depth =>
    if c = '{' then
      scanGoE orig cs (i + 1) (if start = none then some i else start) (depth + 1)
    else if c = '}' then
      match start with
      | some s0 =>
        if depth - 1 = 0 then
          match loadsE (sliceTo orig s0 i) with
          | .ok v => .ok (some v)
          | .error _ => scanGoE orig cs (i + 1) none 0
        else scanGoE orig cs (i + 1) (some s0) (depth - 1)
      | none => scanGoE orig cs (i + 1) none (depth - 1)
    else scanGoE orig cs (i + 1) start depth

/-- Exception-explicit form of `clean_json_string`. -/
def clean_json_stringE (s : String) : Except String (Option JVal) :=
  if s.data = [] then .ok none
  else
    let t := pyStrip (stripFences s.data)
    match scanGoE t t 0 none 0 with
    | .ok (some v) => .ok (some v)
    | .ok none =>
      (match loadsE t with
       | .ok v => .ok (some v)
       | .error _ => .ok none)
    | .error e => .error e

end Analyzer

namespace Scraper

/-- Fuel-driven body of `stripJsonFence`. -/
def stripJsonFenceGo : Nat → List Char → List Char
  | 0, l => l
  | _ + 1, [] => []
  | f + 1, c :: cs =>
    if ("```json".data).isPrefixOf (c :: cs) then
      stripJsonFenceGo f (((c :: cs).drop 7).dropWhile pyWs)
    else c :: stripJsonFenceGo f cs

/-- Line 107 of `scraper_ia_pdf_a_json.py`:
`re.sub(r'```json\s*', '', json_str)` — the greedy `\s*` also swallows the
whitespace run after the marker. -/
def stripJsonFence (cs : List Char) : List Char := stripJsonFenceGo cs.length cs

/-- Fuel-driven body of `stripBareFence`. -/
def stripBareFenceGo : Nat → List Char → List Char
  | 0, l => l
  | _ + 1, [] => []
  | f + 1, c :: cs =>
    if ("```".data).isPrefixOf (c :: cs) then
      stripBareFenceGo f (((c :: cs).drop 3).dropWhile pyWs)
    else c :: stripBareFenceGo f cs

/-- Line 108: `re.sub(r'```\s*', '', json_str)`. -/
def stripBareFence (cs : List Char) : List Char := stripBareFenceGo cs.length cs

/-- The scan loop of `scraper_ia_pdf_a_json.py` lines 120-132: the stack of
`'{'` is a counter, `start_idx = -1` is `none`.  On a failed candidate parse
the code `continue`s without resetting `start_idx`; a `}` with an empty
stack is skipped entirely.  Falling off the end raises
`json.JSONDecodeError("No se encontró JSON válido", json_str, 0)`. -/
def scanGo (orig : List Char) : List Char → Nat → Option Nat → Nat → Except String JVal
  | [], _, _, _ => .error "No se encontró JSON válido"
  | c :: cs, i, start, stk =>
    if c = '{' then
      scanGo orig cs (i + 1) (if stk = 0 then some i else start) (stk + 1)
    else if c = '}' then
      if stk = 0 then scanGo orig cs (i + 1) start 0
      else if stk = 1 then
        match start with
        | some s0 =>
          (match jsonLoads (sliceTo orig s0 i) with
           | some v => .ok v
           | none => scanGo orig cs (i + 1) (some s0) 0)
        | none => scanGo orig cs (i + 1) none 0
      else scanGo orig cs (i + 1) start (stk - 1)
    else scanGo orig cs (i + 1) start stk

/-- `clean_json_string` of `scraper_ia_pdf_a_json.py` lines 105-134: strip
both fence patterns and whitespace, first try a whole-text parse, then the
brace scan; if nothing parses the function raises `json.JSONDecodeError`
(`Except.error`). -/
def clean_json_string (s : String) : Except String JVal :=
  let t := pyStrip (stripBareFence (stripJsonFence s.data))
  match jsonLoads t with
  | some v => .ok v
  | none => scanGo t t 0 none 0

end Scraper

/-- Lowercase hexadecimal digit, as `json.dumps` prints `\uXXXX` escapes. -/
def hexDigit (n : Nat) : Char :=
  if n < 10 then Char.ofNat (48 + n) else Char.ofNat (87 + n)

/-- A `\uXXXX` escape for one UTF-16 code unit. -/
def uEsc (n : Nat) : List Char :=
  ['\\', 'u', hexDigit (n / 4096 % 16), hexDigit (n / 256 % 16),
   hexDigit (n / 16 % 16), hexDigit (n % 16)]

/-- `json.dumps` (default `ensure_ascii=True`) encoding of one character of
a string: the short escapes, `\uXXXX` for other control or non-ASCII
characters (a surrogate pair outside the BMP), the character itself
otherwise. -/
def escChar (c : Char) : List Char :=
  if c = '"' then ['\\', '"']
  else if c = '\\' then ['\\', '\\']
  else if c = '\n' then ['\\', 'n']
  else if c = '\r' then ['\\', 'r']
  else if c = '\t' then ['\\', 't']
  else if c.toNat = 8 then ['\\', 'b']
  else if c.toNat = 12 then ['\\', 'f']
  else if c.toNat < 0x20 || c.toNat > 0x7e then
    if c.toNat ≥ 0x10000 then
      uEsc (0xD800 + (c.toNat - 0x10000) / 1024) ++ uEsc (0xDC00 + (c.toNat - 0x10000) % 1024)
    else uEsc c.toNat
  else [c]

/-- `json.dumps` encoding of a string, quotes included. -/
def encStr (s : String) : List Char :=
  '"' :: s.data.foldr (fun c acc => escChar c ++ acc) ['"']

mutual
/-- `json.dumps` with its default separators `', '` and `': '`.  A number
prints as its literal; Python prints `repr` of the float or int, which
coincides with the literal whenever the literal is the value's canonical
spelling — true of every number in the claims. -/
def dumpsV : JVal → List Char
  | .jnull => "null".data
  | .jbool true => "true".data
  | .jbool false => "false".data
  | .jnum lit => lit.data
  | .jstr s => encStr s
  | .jarr .anil => "[]".data
  | .jarr (.acons v t) => '[' :: (dumpsV v ++ elemsTail t) ++ [']']
  | .jobj .onil => "{}".data
  | .jobj (.ocons k v t) =>
    '{' :: (encStr k ++ ':' :: ' ' :: dumpsV v ++ memsTail t) ++ ['}']

/-- Array elements after the first, each preceded by `", "`. -/
def elemsTail : JArr → List Char
  | .anil => []
  | .acons v t => ',' :: ' ' :: (dumpsV v ++ elemsTail t)

/-- Object members after the first, each preceded by `", "`. -/
def memsTail : JObj → List Char
  | .onil => []
  | .ocons k v t => ',' :: ' ' :: (encStr k ++ ':' :: ' ' :: dumpsV v ++ memsTail t)
end

/-- Printable ASCII characters that `json.dumps` emits verbatim and that are
inert for every preprocessing step of the recovery routines: not a quote or
backslash (no escaping), not a brace (the naive depth counter sees only
structural braces), not a backtick (fence stripping is the identity). -/
def plainChar (c : Char) : Bool :=
  0x20 ≤ c.toNat && c.toNat ≤ 0x7e &&
    c ≠ '"' && c ≠ '\\' && c ≠ '{' && c ≠ '}' && c ≠ Char.ofNat 96

/-- Shape of the optional fraction tail of a canonical number literal:
empty, or a dot followed by at least one digit. -/
def fracShape (r : List Char) : Bool :=
  if r = [] then true
  else if r.head? = some '.' then decide (r.tail ≠ []) && r.tail.all Char.isDigit
  else false

/-- Number literals in canonical integer/decimal form: optional minus, `0`
or a digit string without a leading zero, optional fraction.  Exactly the
literals CPython's number regex matches in full (exponents are left out of
the well-formed class; no claim uses one). -/
def numLitOK (lit : String) : Bool :=
  let body := if lit.data.head? = some '-' then lit.data.tail else lit.data
  decide ((digitsTake body).1 ≠ []) &&
    ((digitsTake body).1 = ['0'] || decide ((digitsTake body).1.head? ≠ some '0')) &&
    fracShape (digitsTake body).2

/-- The character after a complete number literal must not be able to
extend the regex match: not a digit, dot or exponent marker. -/
def numSep (r : List Char) : Bool :=
  match r with
  | [] => true
  | c :: _ => !(c.isDigit || c = '.' || c = 'e' || c = 'E')

/-- The head, if any, is not a digit. -/
def noDigitHead (r : List Char) : Bool :=
  match r with
  | [] => true
  | c :: _ => !c.isDigit

mutual
/-- Strings and keys all `plainChar`, numbers canonical literals. -/
def wfV : JVal → Bool
  | .jnull => true
  | .jbool _ => true
  | .jnum lit => numLitOK lit
  | .jstr s => s.data.all plainChar
  | .jarr a => wfA a
  | .jobj o => wfO o

/-- Well-formedness of array elements. -/
def wfA : JArr → Bool
  | .anil => true
  | .acons v t => wfV v && wfA t

/-- Well-formedness of object members. -/
def wfO : JObj → Bool
  | .onil => true
  | .ocons k v t => k.data.all plainChar && wfV v && wfO t
end

mutual
/-- Fuel sufficient for `parseV` to read this value. -/
def fuelV : JVal → Nat
  | .jarr a => 1 + fuelA a
  | .jobj o => 1 + fuelO o
  | _ => 1

/-- Fuel sufficient for `parseElems`. -/
def fuelA : JArr → Nat
  | .anil => 1
  | .acons v t => 1 + max (fuelV v) (fuelA t)

/-- Fuel sufficient for `parseMems`. -/
def fuelO : JObj → Nat
  | .onil => 1
  | .ocons _ v t => 1 + max (fuelV v) (fuelO t)
end

/-- Values reaching `to_number_simple` in `cleaner.py`: `None`, Python ints
and floats (floats as rationals — exact for every value in the claims), and
strings. -/
inductive PyVal : Type where
  | pnone : PyVal
  | pint : Int → PyVal
  | pfloat : ℚ → PyVal
  | pstr : String → PyVal

/-- Numeric value of a digit string. -/
def natOfDigits (ds : List Char) : Nat :=
  ds.foldl (fun a c => a * 10 + (c.toNat - 48)) 0

/-- Value of `float("<ds>.<fs>")`, exactly (as a rational). -/
def ratDigits (ds fs : List Char) : ℚ :=
  (natOfDigits ds : ℚ) + (natOfDigits fs : ℚ) / (10 : ℚ) ^ fs.length

/-- The regex fragment `\d+(\.\d+)?` anchored at the start of the input:
the integer digits, the fraction digits (empty when no fraction), and the
remainder.  Greedy matching with no backtracking is faithful here:
shrinking `\d+` or dropping a present fraction can never enable the rest
of the pattern. -/
def matchNumAt (cs : List Char) : Option (List Char × List Char × List Char) :=
  match cs.head? with
  | none => none
  | some c =>
    if c.isDigit then
      let p := digitsTake cs
      if p.2.head? = some '.' then
        (let q := digitsTake p.2.tail
         if q.1 = [] then some (p.1, [], p.2)
         else some (p.1, q.1, q.2))
      else some (p.1, [], p.2)
    else none

/-- `re.search` for `(\d+(\.\d+)?)\s*<lit>`: try every start position from
the left; on a number match, require `lit` after optional whitespace, else
resume the search one character further on.  Returns group 1 as integer
and fraction digits. -/
def reSearchNumLit (lit : List Char) : List Char → Option (List Char × List Char)
  | [] => none
  | c :: cs =>
    match matchNumAt (c :: cs) with
    | some (ds, fs, rest) =>
      if lit.isPrefixOf (rest.dropWhile pyWs) then some (ds, fs)
      else reSearchNumLit lit cs
    | none => reSearchNumLit lit cs

/-- `re.search` for the bare `(\d+(\.\d+)?)`. -/
def reSearchNum : List Char → Option (List Char × List Char)
  | [] => none
  | c :: cs =>
    match matchNumAt (c :: cs) with
    | some (ds, fs, _) => some (ds, fs)
    | none => reSearchNum cs

/-- `to_number_simple` of `cleaner.py` lines 4-21: `None` passthrough,
ints and floats to float, otherwise lowercase, drop commas, strip, check
the sentinels, then the `mill`, `mil` and bare-number regexes in that
order; `none` when nothing matches.  The function is total: the `never
raises` clause of its contract.  `float(m.group(1))` is `ratDigits`,
exact for every value in the claims.  (`str.lower` and `\d` are modelled
on ASCII; every input in the claims is ASCII where it matters.) -/
def to_number_simple (v : PyVal) : Option ℚ :=
  match v with
  | .pnone => none
  | .pint i => some (i : ℚ)
  | .pfloat q => some q
  | .pstr s =>
    let cs := pyStrip ((s.data.map Char.toLower).filter (fun c => c ≠ ','))
    if cs = [] || cs = "null".data || cs = "none".data || cs = "-".data then none
    else
      match reSearchNumLit ("mill".data) cs with
      | some (ds, fs) => some (ratDigits ds fs * 1000000)
      | none =>
        match reSearchNumLit ("mil".data) cs with
        | some (ds, fs) => some (ratDigits ds fs * 1000)
        | none =>
          match reSearchNum cs with
          | some (ds, fs) => some (ratDigits ds fs)
          | none => none

/-! ## The scan loop attempts its candidates in order, first success wins -/

/-- The analyzer's scan loop returns exactly the first candidate of the
candidate sequence that `json.loads` accepts: the run attempts candidates
left to right and stops at the first success, so it computes `findSome?`
over the full (all-failing-dynamics) candidate list. -/
theorem scanGo_eq_candGo (orig : List Char) :
    ∀ rem i st d, Analyzer.scanGo orig rem i st d =
      (Analyzer.candGo orig rem i st d).findSome? jsonLoads
  | [], _, _, _ => rfl
  | c :: cs, i, st, d => by
    simp only [Analyzer.scanGo, Analyzer.candGo]
    by_cases h1 : c = '{'
    · rw [if_pos h1, if_pos h1]
      exact scanGo_eq_candGo orig cs _ _ _
    · rw [if_neg h1, if_neg h1]
      by_cases h2 : c = '}'
      · rw [if_pos h2, if_pos h2]
        cases st with
        | none => exact scanGo_eq_candGo orig cs _ _ _
        | some s0 =>
          dsimp only
          by_cases h3 : d - 1 = 0
          · rw [if_pos h3, if_pos h3]
            simp only [List.findSome?]
            cases h4 : jsonLoads (sliceTo orig s0 i) with
            | some v => rfl
            | none => exact scanGo_eq_candGo orig cs _ _ _
          · rw [if_neg h3, if_neg h3]
            exact scanGo_eq_candGo orig cs _ _ _
      · rw [if_neg h2, if_neg h2]
        exact scanGo_eq_candGo orig cs _ _ _

/-- `clean_json_string` in closed form: the first candidate that parses, and
otherwise the whole-text fallback parse. -/
theorem clean_characterization (s : String) :
    Analyzer.clean_json_string s =
      ((Analyzer.candidates (pyStrip (Analyzer.stripFences s.data))).findSome? jsonLoads).orElse
        (fun _ => jsonLoads (pyStrip (Analyzer.stripFences s.data))) := by
  by_cases h : s.data = []
  · unfold Analyzer.clean_json_string
    rw [if_pos h, h]
    rfl
  · unfold Analyzer.clean_json_string
    rw [if_neg h]
    show (match Analyzer.scanGo (pyStrip (Analyzer.stripFences s.data))
        (pyStrip (Analyzer.stripFences s.data)) 0 none 0 with
      | some v => some v
      | none => jsonLoads (pyStrip (Analyzer.stripFences s.data))) = _
    rw [Analyzer.candidates, ← scanGo_eq_candGo]
    cases hs : Analyzer.scanGo (pyStrip (Analyzer.stripFences s.data))
      (pyStrip (Analyzer.stripFences s.data)) 0 none 0 with
    | some v => rfl
    | none => rfl

/-- Skip-and-continue in terms of the candidate sequence: when the scan
produces exactly an unparseable candidate followed by a parseable one, the
second one's value is returned. -/
theorem skip_continue_core (s : String) (c1 c2 : List Char) (v : JVal)
    (hc : Analyzer.candidates (pyStrip (Analyzer.stripFences s.data)) = [c1, c2])
    (h1 : jsonLoads c1 = none) (h2 : jsonLoads c2 = some v) :
    Analyzer.clean_json_string s = some v := by
  rw [clean_characterization, hc]
  simp [List.findSome?, h1, h2, Option.orElse]

/-! ## The analyzer never lets an exception escape -/

/-- The exception-explicit scan equals `Except.ok` of the plain scan: the
`try/except` around the candidate parse catches every parse failure. -/
theorem scanGoE_eq_scanGo (orig : List Char) :
    ∀ rem i st d, Analyzer.scanGoE orig rem i st d =
      Except.ok (Analyzer.scanGo orig rem i st d)
  | [], _, _, _ => rfl
  | c :: cs, i, st, d => by
    simp only [Analyzer.scanGoE, Analyzer.scanGo]
    by_cases h1 : c = '{'
    · rw [if_pos h1, if_pos h1]
      exact scanGoE_eq_scanGo orig cs _ _ _
    · rw [if_neg h1, if_neg h1]
      by_cases h2 : c = '}'
      · rw [if_pos h2, if_pos h2]
        cases st with
        | none => exact scanGoE_eq_scanGo orig cs _ _ _
        | some s0 =>
          dsimp only
          by_cases h3 : d - 1 = 0
          · rw [if_pos h3, if_pos h3]
            simp only [loadsE]
            cases h4 : jsonLoads (sliceTo orig s0 i) with
            | some v => rfl
            | none => exact scanGoE_eq_scanGo orig cs _ _ _
          · rw [if_neg h3, if_neg h3]
            exact scanGoE_eq_scanGo orig cs _ _ _
      · rw [if_neg h2, if_neg h2]
        exact scanGoE_eq_scanGo orig cs _ _ _

/-- The analyzer's recovery returns normally on every input, with the value
the plain model computes; no exception ever escapes. -/
theorem cleanE_eq_ok (s : String) :
    Analyzer.clean_json_stringE s = Except.ok (Analyzer.clean_json_string s) := by
  unfold Analyzer.clean_json_stringE Analyzer.clean_json_string
  by_cases h : s.data = []
  · rw [if_pos h, if_pos h]
  · rw [if_neg h, if_neg h]
    show (match Analyzer.scanGoE (pyStrip (Analyzer.stripFences s.data))
        (pyStrip (Analyzer.stripFences s.data)) 0 none 0 with
      | Except.ok (some v) => Except.ok (some v)
      | Except.ok none =>
        (match loadsE (pyStrip (Analyzer.stripFences s.data)) with
         | Except.ok v => Except.ok (some v)
         | Except.error _ => Except.ok none)
      | Except.error e => Except.error e) =
      Except.ok (match Analyzer.scanGo (pyStrip (Analyzer.stripFences s.data))
        (pyStrip (Analyzer.stripFences s.data)) 0 none 0 with
      | some v => some v
      | none => jsonLoads (pyStrip (Analyzer.stripFences s.data)))
    rw [scanGoE_eq_scanGo]
    cases hs : Analyzer.scanGo (pyStrip (Analyzer.stripFences s.data))
      (pyStrip (Analyzer.stripFences s.data)) 0 none 0 with
    | some v => rfl
    | none =>
      simp only [loadsE]
      cases hl : jsonLoads (pyStrip (Analyzer.stripFences s.data)) with
      | some v => rfl
      | none => rfl

/-! ## Preprocessing only deletes characters; a scan needs a close brace -/

/-- Fence stripping deletes characters and invents none. -/
theorem stripFencesGo_subset : ∀ f cs, Analyzer.stripFencesGo f cs ⊆ cs
  | 0, _ => fun _ h => h
  | _ + 1, [] => by simp [Analyzer.stripFencesGo]
  | f + 1, c :: cs => by
    simp only [Analyzer.stripFencesGo]
    split
    · exact (stripFencesGo_subset f _).trans (List.drop_subset _ _)
    · split
      · exact (stripFencesGo_subset f _).trans (List.drop_subset _ _)
      · exact List.cons_subset_cons c (stripFencesGo_subset f cs)

/-- The scraper's first substitution deletes characters and invents none. -/
theorem stripJsonFenceGo_subset : ∀ f cs, Scraper.stripJsonFenceGo f cs ⊆ cs
  | 0, _ => fun _ h => h
  | _ + 1, [] => by simp [Scraper.stripJsonFenceGo]
  | f + 1, c :: cs => by
    simp only [Scraper.stripJsonFenceGo]
    split
    · exact (stripJsonFenceGo_subset f _).trans
        (((List.dropWhile_sublist _).subset).trans (List.drop_subset _ _))
    · exact List.cons_subset_cons c (stripJsonFenceGo_subset f cs)

/-- The scraper's second substitution deletes characters and invents none. -/
theorem stripBareFenceGo_subset : ∀ f cs, Scraper.stripBareFenceGo f cs ⊆ cs
  | 0, _ => fun _ h => h
  | _ + 1, [] => by simp [Scraper.stripBareFenceGo]
  | f + 1, c :: cs => by
    simp only [Scraper.stripBareFenceGo]
    split
    · exact (stripBareFenceGo_subset f _).trans
        (((List.dropWhile_sublist _).subset).trans (List.drop_subset _ _))
    · exact List.cons_subset_cons c (stripBareFenceGo_subset f cs)

/-- `strip()` deletes characters and invents none. -/
theorem pyStrip_subset (cs : List Char) : pyStrip cs ⊆ cs := by
  intro a ha
  unfold pyStrip at ha
  rw [List.mem_reverse] at ha
  have h1 := (List.dropWhile_sublist (l := (cs.dropWhile pyWs).reverse) pyWs).subset ha
  rw [List.mem_reverse] at h1
  exact (List.dropWhile_sublist (l := cs) pyWs).subset h1

/-- The analyzer's scan can only return at a `}`; with no close brace in the
text the loop runs to the end. -/
theorem scanGo_no_close (orig : List Char) :
    ∀ rem i st d, '}' ∉ rem → Analyzer.scanGo orig rem i st d = none
  | [], _, _, _, _ => rfl
  | c :: cs, i, st, d, h => by
    have hc : ¬c = '}' := fun e => h (e ▸ List.mem_cons_self c cs)
    have hcs : '}' ∉ cs := fun e => h (List.mem_cons_of_mem c e)
    simp only [Analyzer.scanGo]
    by_cases h1 : c = '{'
    · rw [if_pos h1]
      exact scanGo_no_close orig cs _ _ _ hcs
    · rw [if_neg h1, if_neg hc]
      exact scanGo_no_close orig cs _ _ _ hcs

/-- The scraper's scan can only return at a `}`. -/
theorem scraperGo_no_close (orig : List Char) :
    ∀ rem i st k, '}' ∉ rem →
      Scraper.scanGo orig rem i st k = .error "No se encontró JSON válido"
  | [], _, _, _, _ => rfl
  | c :: cs, i, st, k, h => by
    have hc : ¬c = '}' := fun e => h (e ▸ List.mem_cons_self c cs)
    have hcs : '}' ∉ cs := fun e => h (List.mem_cons_of_mem c e)
    simp only [Scraper.scanGo]
    by_cases h1 : c = '{'
    · rw [if_pos h1]
      exact scraperGo_no_close orig cs _ _ _ hcs
    · rw [if_neg h1, if_neg hc]
      exact scraperGo_no_close orig cs _ _ _ hcs

/-- Whitespace skipping keeps a sublist. -/
theorem skipWs_subset (cs : List Char) : skipWs cs ⊆ cs :=
  (List.dropWhile_sublist _).subset

/-- The remainder an escape decoder returns is drawn from its input. -/
theorem escDecode_subset (cs : List Char) : ∀ p, escDecode cs = some p → p.2 ⊆ cs := by
  intro p h
  unfold escDecode at h
  by_cases hu : cs.head? = some 'u'
  · rw [if_pos hu] at h
    cases ht : cs.tail with
    | nil => rw [ht] at h; simp at h
    | cons k1 r1 =>
      cases r1 with
      | nil => rw [ht] at h; simp at h
      | cons k2 r2 =>
        cases r2 with
        | nil => rw [ht] at h; simp at h
        | cons k3 r3 =>
          cases r3 with
          | nil => rw [ht] at h; simp at h
          | cons k4 cs4 =>
            rw [ht] at h
            dsimp only at h
            cases e1 : hexVal k1 with
            | none => rw [e1] at h; simp at h
            | some a =>
              cases e2 : hexVal k2 with
              | none => rw [e1, e2] at h; simp at h
              | some b =>
                cases e3 : hexVal k3 with
                | none => rw [e1, e2, e3] at h; simp at h
                | some d =>
                  cases e4 : hexVal k4 with
                  | none => rw [e1, e2, e3, e4] at h; simp at h
                  | some e =>
                    rw [e1, e2, e3, e4] at h
                    simp only [Option.some.injEq] at h
                    rw [← h]
                    intro x hx
                    refine List.tail_subset cs ?_
                    rw [ht]
                    exact List.mem_cons_of_mem _ (List.mem_cons_of_mem _
                      (List.mem_cons_of_mem _ (List.mem_cons_of_mem _ hx)))
  · rw [if_neg hu] at h
    cases cs with
    | nil => simp at h
    | cons e cs2 =>
      dsimp only at h
      cases he : escTrans e with
      | none => rw [he] at h; simp at h
      | some d =>
        rw [he] at h
        simp only [Option.map_some', Option.some.injEq] at h
        rw [← h]
        exact List.subset_cons_self _ _

/-- The remainder of a string-body parse is drawn from its input. -/
theorem strBodyGo_subset : ∀ f cs p, strBodyGo f cs = some p → p.2 ⊆ cs
  | 0, _, _, h => by simp [strBodyGo] at h
  | _ + 1, [], _, h => by simp [strBodyGo] at h
  | f + 1, c :: cs, p, h => by
    simp only [strBodyGo] at h
    by_cases h1 : c = '"'
    · rw [if_pos h1] at h
      simp only [Option.some.injEq] at h
      rw [← h]
      exact List.subset_cons_self _ _
    · rw [if_neg h1] at h
      by_cases h2 : c = '\\'
      · rw [if_pos h2] at h
        cases hd : escDecode cs with
        | none => rw [hd] at h; simp at h
        | some q =>
          rw [hd] at h
          dsimp only at h
          cases hb : strBodyGo f q.2 with
          | none => rw [hb] at h; simp at h
          | some w =>
            rw [hb] at h
            simp only [Option.map_some', Option.some.injEq] at h
            rw [← h]
            exact ((strBodyGo_subset f q.2 w hb).trans
              (escDecode_subset cs q hd)).trans (List.subset_cons_self _ _)
      · rw [if_neg h2] at h
        by_cases h3 : c.toNat < 0x20
        · rw [if_pos h3] at h; simp at h
        · rw [if_neg h3] at h
          cases hb : strBodyGo f cs with
          | none => rw [hb] at h; simp at h
          | some w =>
            rw [hb] at h
            simp only [Option.map_some', Option.some.injEq] at h
            rw [← h]
            exact (strBodyGo_subset f cs w hb).trans (List.subset_cons_self _ _)

/-- The remainder of `strBody` is drawn from its input. -/
theorem strBody_subset (cs : List Char) (p : List Char × List Char)
    (h : strBody cs = some p) : p.2 ⊆ cs :=
  strBodyGo_subset _ cs p h

/-- The remainder of `digitsTake` is drawn from its input. -/
theorem digitsTake_subset (cs : List Char) : (digitsTake cs).2 ⊆ cs :=
  (List.dropWhile_sublist _).subset

/-- The remainder of the integer part is drawn from its input. -/
theorem numIntPart_subset (cs : List Char) : ∀ p, numIntPart cs = some p → p.2 ⊆ cs := by
  intro p h
  cases cs with
  | nil => simp [numIntPart] at h
  | cons c cs' =>
    simp only [numIntPart] at h
    by_cases h1 : c = '0'
    · rw [if_pos h1] at h
      simp only [Option.some.injEq] at h
      rw [← h]
      exact List.subset_cons_self _ _
    · rw [if_neg h1] at h
      by_cases h2 : c.isDigit
      · rw [if_pos h2] at h
        simp only [Option.some.injEq] at h
        rw [← h]
        exact (digitsTake_subset cs').trans (List.subset_cons_self _ _)
      · rw [if_neg h2] at h; simp at h

/-- The remainder of the fraction part is drawn from its input. -/
theorem numFracPart_subset (cs : List Char) : (numFracPart cs).2 ⊆ cs := by
  unfold numFracPart
  by_cases h1 : cs.head? = some '.'
  · rw [if_pos h1]
    by_cases h2 : (digitsTake cs.tail).1 = []
    · rw [if_pos h2]; exact fun x hx => hx
    · rw [if_neg h2]
      exact (digitsTake_subset cs.tail).trans (List.tail_subset cs)
  · rw [if_neg h1]; exact fun x hx => hx

/-- The remainder of the exponent part is drawn from its input. -/
theorem numExpPart_subset (cs : List Char) : (numExpPart cs).2 ⊆ cs := by
  cases cs with
  | nil => exact fun x hx => hx
  | cons e cs2 =>
    simp only [numExpPart]
    by_cases h1 : e = 'e' || e = 'E'
    · rw [if_pos h1]
      cases cs2 with
      | nil =>
        dsimp only
        by_cases h2 : (digitsTake ([] : List Char)).1 = []
        · rw [if_pos h2]; exact fun x hx => hx
        · rw [if_neg h2]
          exact (digitsTake_subset _).trans (List.subset_cons_self _ _)
      | cons s cs3 =>
        dsimp only
        by_cases hs : s = '+' || s = '-'
        · rw [if_pos hs]
          dsimp only
          by_cases h2 : (digitsTake cs3).1 = []
          · rw [if_pos h2]; exact fun x hx => hx
          · rw [if_neg h2]
            exact ((digitsTake_subset cs3).trans
              (List.subset_cons_self _ _)).trans (List.subset_cons_self _ _)
        · rw [if_neg hs]
          dsimp only
          by_cases h2 : (digitsTake (s :: cs3)).1 = []
          · rw [if_pos h2]; exact fun x hx => hx
          · rw [if_neg h2]
            exact (digitsTake_subset (s :: cs3)).trans (List.subset_cons_self _ _)
    · rw [if_neg h1]; exact fun x hx => hx

/-- The remainder of a number match is drawn from its input. -/
theorem numMatch_subset (cs : List Char) : ∀ p, numMatch cs = some p → p.2 ⊆ cs := by
  intro p h
  unfold numMatch at h
  by_cases h1 : cs.head? = some '-'
  · rw [if_pos h1] at h
    dsimp only at h
    cases hi : numIntPart cs.tail with
    | none => rw [hi] at h; simp at h
    | some q =>
      rw [hi] at h
      simp only [Option.some.injEq] at h
      rw [← h]
      exact ((numExpPart_subset _).trans ((numFracPart_subset _).trans
        (numIntPart_subset cs.tail q hi))).trans (List.tail_subset cs)
  · rw [if_neg h1] at h
    dsimp only at h
    cases hi : numIntPart cs with
    | none => rw [hi] at h; simp at h
    | some q =>
      rw [hi] at h
      simp only [Option.some.injEq] at h
      rw [← h]
      exact (numExpPart_subset _).trans ((numFracPart_subset _).trans
        (numIntPart_subset cs q hi))

/-- Skipping whitespace after dropping a head stays inside the list. -/
theorem tail_skipWs_subset (l : List Char) : (skipWs l).tail ⊆ l :=
  (List.tail_subset _).trans (skipWs_subset l)

/-- Two layers of whitespace skipping around a dropped head stay inside. -/
theorem skipWs_tail_skipWs_subset (l : List Char) : skipWs (skipWs l).tail ⊆ l :=
  (skipWs_subset _).trans (tail_skipWs_subset l)

/-- The remainder of any of the three parsing functions is drawn from its
input. -/
theorem parse_subset : ∀ f,
    (∀ cs r, parseV f cs = some r → r.2 ⊆ cs) ∧
    (∀ cs r, parseMems f cs = some r → r.2 ⊆ cs) ∧
    (∀ cs r, parseElems f cs = some r → r.2 ⊆ cs) := by
  intro f
  induction f with
  | zero =>
    refine ⟨?_, ?_, ?_⟩ <;> intro cs r h <;>
      simp [parseV, parseMems, parseElems] at h
  | succ f ih =>
    obtain ⟨ihV, ihM, ihE⟩ := ih
    refine ⟨?_, ?_, ?_⟩
    · intro cs r h
      simp only [parseV] at h
      by_cases h1 : cs.head? = some '{'
      · rw [if_pos h1] at h
        by_cases h2 : (skipWs cs.tail).head? = some '}'
        · rw [if_pos h2] at h
          simp only [Option.some.injEq] at h
          rw [← h]
          exact (List.tail_subset _).trans ((skipWs_subset _).trans (List.tail_subset cs))
        · rw [if_neg h2] at h
          cases hm : parseMems f (skipWs cs.tail) with
          | none => rw [hm] at h; simp at h
          | some q =>
            rw [hm] at h
            simp only [Option.map_some', Option.some.injEq] at h
            rw [← h]
            exact (ihM _ _ hm).trans ((skipWs_subset _).trans (List.tail_subset cs))
      · rw [if_neg h1] at h
        by_cases h1b : cs.head? = some '['
        · rw [if_pos h1b] at h
          by_cases h2 : (skipWs cs.tail).head? = some ']'
          · rw [if_pos h2] at h
            simp only [Option.some.injEq] at h
            rw [← h]
            exact (List.tail_subset _).trans ((skipWs_subset _).trans (List.tail_subset cs))
          · rw [if_neg h2] at h
            cases hm : parseElems f (skipWs cs.tail) with
            | none => rw [hm] at h; simp at h
            | some q =>
              rw [hm] at h
              simp only [Option.map_some', Option.some.injEq] at h
              rw [← h]
              exact (ihE _ _ hm).trans ((skipWs_subset _).trans (List.tail_subset cs))
        · rw [if_neg h1b] at h
          by_cases h1c : cs.head? = some '"'
          · rw [if_pos h1c] at h
            cases hs : strBody cs.tail with
            | none => rw [hs] at h; simp at h
            | some q =>
              rw [hs] at h
              simp only [Option.map_some', Option.some.injEq] at h
              rw [← h]
              exact (strBody_subset _ _ hs).trans (List.tail_subset cs)
          · rw [if_neg h1c] at h
            by_cases p1 : "true".data.isPrefixOf cs
            · rw [if_pos p1] at h
              simp only [Option.some.injEq] at h
              rw [← h]
              exact List.drop_subset _ _
            · rw [if_neg p1] at h
              by_cases p2 : "false".data.isPrefixOf cs
              · rw [if_pos p2] at h
                simp only [Option.some.injEq] at h
                rw [← h]
                exact List.drop_subset _ _
              · rw [if_neg p2] at h
                by_cases p3 : "null".data.isPrefixOf cs
                · rw [if_pos p3] at h
                  simp only [Option.some.injEq] at h
                  rw [← h]
                  exact List.drop_subset _ _
                · rw [if_neg p3] at h
                  by_cases p4 : "NaN".data.isPrefixOf cs
                  · rw [if_pos p4] at h
                    simp only [Option.some.injEq] at h
                    rw [← h]
                    exact List.drop_subset _ _
                  · rw [if_neg p4] at h
                    by_cases p5 : "Infinity".data.isPrefixOf cs
                    · rw [if_pos p5] at h
                      simp only [Option.some.injEq] at h
                      rw [← h]
                      exact List.drop_subset _ _
                    · rw [if_neg p5] at h
                      by_cases p6 : "-Infinity".data.isPrefixOf cs
                      · rw [if_pos p6] at h
                        simp only [Option.some.injEq] at h
                        rw [← h]
                        exact List.drop_subset _ _
                      · rw [if_neg p6] at h
                        cases hn : numMatch cs with
                        | none => rw [hn] at h; simp at h
                        | some q =>
                          rw [hn] at h
                          simp only [Option.map_some', Option.some.injEq] at h
                          rw [← h]
                          exact numMatch_subset cs q hn
    · intro cs r h
      simp only [parseMems] at h
      by_cases h1 : cs.head? = some '"'
      · rw [if_pos h1] at h
        cases hs : strBody cs.tail with
        | none => rw [hs] at h; simp at h
        | some kq =>
          obtain ⟨k, r1⟩ := kq
          rw [hs] at h
          dsimp only at h
          by_cases h2 : (skipWs r1).head? = some ':'
          · rw [if_pos h2] at h
            cases hv : parseV f (skipWs (skipWs r1).tail) with
            | none => rw [hv] at h; simp at h
            | some vr =>
              obtain ⟨v, r3⟩ := vr
              rw [hv] at h
              dsimp only at h
              have hr3 : r3 ⊆ cs :=
                (ihV _ _ hv).trans
                  (((skipWs_tail_skipWs_subset r1).trans (strBody_subset _ _ hs)).trans
                    (List.tail_subset cs))
              by_cases h3 : (skipWs r3).head? = some ','
              · rw [if_pos h3] at h
                cases hm : parseMems f (skipWs (skipWs r3).tail) with
                | none => rw [hm] at h; simp at h
                | some q =>
                  rw [hm] at h
                  simp only [Option.map_some', Option.some.injEq] at h
                  rw [← h]
                  exact (ihM _ _ hm).trans ((skipWs_tail_skipWs_subset r3).trans hr3)
              · rw [if_neg h3] at h
                by_cases h4 : (skipWs r3).head? = some '}'
                · rw [if_pos h4] at h
                  simp only [Option.some.injEq] at h
                  rw [← h]
                  exact (tail_skipWs_subset r3).trans hr3
                · rw [if_neg h4] at h; simp at h
          · rw [if_neg h2] at h; simp at h
      · rw [if_neg h1] at h; simp at h
    · intro cs r h
      simp only [parseElems] at h
      cases hv : parseV f cs with
      | none => rw [hv] at h; simp at h
      | some vr =>
        obtain ⟨v, r1⟩ := vr
        rw [hv] at h
        dsimp only at h
        have hr1 : r1 ⊆ cs := ihV _ _ hv
        by_cases h2 : (skipWs r1).head? = some ','
        · rw [if_pos h2] at h
          cases hm : parseElems f (skipWs (skipWs r1).tail) with
          | none => rw [hm] at h; simp at h
          | some q =>
            rw [hm] at h
            simp only [Option.map_some', Option.some.injEq] at h
            rw [← h]
            exact (ihE _ _ hm).trans ((skipWs_tail_skipWs_subset r1).trans hr1)
        · rw [if_neg h2] at h
          by_cases h3 : (skipWs r1).head? = some ']'
          · rw [if_pos h3] at h
            simp only [Option.some.injEq] at h
            rw [← h]
            exact (tail_skipWs_subset r1).trans hr1
          · rw [if_neg h3] at h; simp at h

/-- A successful member parse saw a closing brace somewhere in its input. -/
theorem parseMems_close : ∀ f cs r, parseMems f cs = some r → '}' ∈ cs := by
  intro f
  induction f with
  | zero => intro cs r h; simp [parseMems] at h
  | succ f ih =>
    intro cs r h
    simp only [parseMems] at h
    by_cases h1 : cs.head? = some '"'
    · rw [if_pos h1] at h
      cases hs : strBody cs.tail with
      | none => rw [hs] at h; simp at h
      | some kq =>
        obtain ⟨k, r1⟩ := kq
        rw [hs] at h
        dsimp only at h
        by_cases h2 : (skipWs r1).head? = some ':'
        · rw [if_pos h2] at h
          cases hv : parseV f (skipWs (skipWs r1).tail) with
          | none => rw [hv] at h; simp at h
          | some vr =>
            obtain ⟨v, r3⟩ := vr
            rw [hv] at h
            dsimp only at h
            have hr3 : r3 ⊆ cs :=
              ((parse_subset f).1 _ _ hv).trans
                (((skipWs_tail_skipWs_subset r1).trans (strBody_subset _ _ hs)).trans
                  (List.tail_subset cs))
            by_cases h3 : (skipWs r3).head? = some ','
            · rw [if_pos h3] at h
              cases hm : parseMems f (skipWs (skipWs r3).tail) with
              | none => rw [hm] at h; simp at h
              | some q =>
                have := ih _ _ hm
                exact ((skipWs_tail_skipWs_subset r3).trans hr3) this
            · rw [if_neg h3] at h
              by_cases h4 : (skipWs r3).head? = some '}'
              · have : '}' ∈ skipWs r3 := List.mem_of_mem_head? (by simp [h4])
                exact ((skipWs_subset r3).trans hr3) this
              · rw [if_neg h4] at h; simp at h
        · rw [if_neg h2] at h; simp at h
    · rw [if_neg h1] at h; simp at h

/-- A successful parse whose value is an object saw a closing brace. -/
theorem parseV_obj_close : ∀ f cs v rest,
    parseV f cs = some (v, rest) → v.isObj = true → '}' ∈ cs := by
  intro f cs v rest h hobj
  cases f with
  | zero => simp [parseV] at h
  | succ f =>
    simp only [parseV] at h
    by_cases h1 : cs.head? = some '{'
    · rw [if_pos h1] at h
      by_cases h2 : (skipWs cs.tail).head? = some '}'
      · have : '}' ∈ skipWs cs.tail := List.mem_of_mem_head? (by simp [h2])
        exact ((skipWs_subset _).trans (List.tail_subset cs)) this
      · rw [if_neg h2] at h
        cases hm : parseMems f (skipWs cs.tail) with
        | none => rw [hm] at h; simp at h
        | some q =>
          have := parseMems_close f _ _ hm
          exact ((skipWs_subset _).trans (List.tail_subset cs)) this
    · rw [if_neg h1] at h
      exfalso
      by_cases h1b : cs.head? = some '['
      · rw [if_pos h1b] at h
        by_cases h2 : (skipWs cs.tail).head? = some ']'
        · rw [if_pos h2] at h
          simp only [Option.some.injEq, Prod.mk.injEq] at h
          rw [← h.1] at hobj
          simp [JVal.isObj] at hobj
        · rw [if_neg h2] at h
          cases hm : parseElems f (skipWs cs.tail) with
          | none => rw [hm] at h; simp at h
          | some q =>
            rw [hm] at h
            simp only [Option.map_some', Option.some.injEq, Prod.mk.injEq] at h
            rw [← h.1] at hobj
            simp [JVal.isObj] at hobj
      · rw [if_neg h1b] at h
        by_cases h1c : cs.head? = some '"'
        · rw [if_pos h1c] at h
          cases hs : strBody cs.tail with
          | none => rw [hs] at h; simp at h
          | some q =>
            rw [hs] at h
            simp only [Option.map_some', Option.some.injEq, Prod.mk.injEq] at h
            rw [← h.1] at hobj
            simp [JVal.isObj] at hobj
        · rw [if_neg h1c] at h
          by_cases p1 : "true".data.isPrefixOf cs
          · rw [if_pos p1] at h
            simp only [Option.some.injEq, Prod.mk.injEq] at h
            rw [← h.1] at hobj
            simp [JVal.isObj] at hobj
          · rw [if_neg p1] at h
            by_cases p2 : "false".data.isPrefixOf cs
            · rw [if_pos p2] at h
              simp only [Option.some.injEq, Prod.mk.injEq] at h
              rw [← h.1] at hobj
              simp [JVal.isObj] at hobj
            · rw [if_neg p2] at h
              by_cases p3 : "null".data.isPrefixOf cs
              · rw [if_pos p3] at h
                simp only [Option.some.injEq, Prod.mk.injEq] at h
                rw [← h.1] at hobj
                simp [JVal.isObj] at hobj
              · rw [if_neg p3] at h
                by_cases p4 : "NaN".data.isPrefixOf cs
                · rw [if_pos p4] at h
                  simp only [Option.some.injEq, Prod.mk.injEq] at h
                  rw [← h.1] at hobj
                  simp [JVal.isObj] at hobj
                · rw [if_neg p4] at h
                  by_cases p5 : "Infinity".data.isPrefixOf cs
                  · rw [if_pos p5] at h
                    simp only [Option.some.injEq, Prod.mk.injEq] at h
                    rw [← h.1] at hobj
                    simp [JVal.isObj] at hobj
                  · rw [if_neg p5] at h
                    by_cases p6 : "-Infinity".data.isPrefixOf cs
                    · rw [if_pos p6] at h
                      simp only [Option.some.injEq, Prod.mk.injEq] at h
                      rw [← h.1] at hobj
                      simp [JVal.isObj] at hobj
                    · rw [if_neg p6] at h
                      cases hn : numMatch cs with
                      | none => rw [hn] at h; simp at h
                      | some q =>
                        rw [hn] at h
                        simp only [Option.map_some', Option.some.injEq,
                          Prod.mk.injEq] at h
                        rw [← h.1] at hobj
                        simp [JVal.isObj] at hobj

/-- `json.loads` can only return a mapping when the text has a `}`. -/
theorem jsonLoads_obj_close (cs : List Char) (v : JVal)
    (h : jsonLoads cs = some v) (hobj : v.isObj = true) : '}' ∈ cs := by
  simp only [jsonLoads] at h
  cases hp : parseV (cs.length + 1) (skipWs cs) with
  | none => rw [hp] at h; simp at h
  | some q =>
    obtain ⟨w, rest⟩ := q
    rw [hp] at h
    dsimp only at h
    by_cases hw : skipWs rest = []
    · rw [if_pos hw] at h
      simp only [Option.some.injEq] at h
      rw [← h] at hobj
      exact skipWs_subset cs (parseV_obj_close _ _ _ _ hp hobj)
    · rw [if_neg hw] at h; simp at h

/-! ## When the two implementations agree -/

/-- The backtick character. -/
def btick : Char := Char.ofNat 96

/-- No backtick anywhere: fence stripping is then the identity. -/
def noBacktick (cs : List Char) : Bool := cs.all (fun c => !(c = btick))

/-- Depth automaton of the analyzer's scan, checking that no close brace
arrives at depth zero (`k` is the current depth).  The candidate-failure
resets do not disturb this: a failure happens exactly when the depth has
returned to zero, so resetting it to zero changes nothing. -/
def noStrayGo : Nat → List Char → Bool
  | _, [] => true
  | k, c :: cs =>
    if c = '{' then noStrayGo (k + 1) cs
    else if c = '}' then decide (1 ≤ k) && noStrayGo (k - 1) cs
    else noStrayGo k cs

/-- No `}` at depth zero anywhere in the text. -/
def noStray (cs : List Char) : Bool := noStrayGo 0 cs

/-- A seven-character fence marker cannot start at a non-backtick. -/
theorem fenceJson_no_match {c : Char} (cs : List Char) (hc : ¬c = btick) :
    ¬("```json".data.isPrefixOf (c :: cs) = true) := by
  intro hp
  rw [List.isPrefixOf_iff_prefix] at hp
  have he : "```json".data = btick :: "``json".data := by decide
  rw [he] at hp
  exact hc ((List.cons_prefix_cons.mp hp).1.symm)

/-- A three-character fence marker cannot start at a non-backtick. -/
theorem fenceBare_no_match {c : Char} (cs : List Char) (hc : ¬c = btick) :
    ¬("```".data.isPrefixOf (c :: cs) = true) := by
  intro hp
  rw [List.isPrefixOf_iff_prefix] at hp
  have he : "```".data = btick :: "``".data := by decide
  rw [he] at hp
  exact hc ((List.cons_prefix_cons.mp hp).1.symm)

/-- On backtick-free text the analyzer's fence stripping is the identity. -/
theorem stripFencesGo_id : ∀ f cs, noBacktick cs = true → Analyzer.stripFencesGo f cs = cs
  | 0, _, _ => rfl
  | _ + 1, [], _ => rfl
  | f + 1, c :: cs, h => by
    have hc : ¬c = btick := by
      simp [noBacktick] at h
      simpa using h.1
    have hcs : noBacktick cs = true := by
      simp [noBacktick] at h ⊢
      exact h.2
    simp only [Analyzer.stripFencesGo]
    rw [if_neg (fenceJson_no_match cs hc), if_neg (fenceBare_no_match cs hc)]
    rw [stripFencesGo_id f cs hcs]

/-- On backtick-free text the scraper's first substitution is the identity. -/
theorem stripJsonFenceGo_id : ∀ f cs, noBacktick cs = true → Scraper.stripJsonFenceGo f cs = cs
  | 0, _, _ => rfl
  | _ + 1, [], _ => rfl
  | f + 1, c :: cs, h => by
    have hc : ¬c = btick := by
      simp [noBacktick] at h
      simpa using h.1
    have hcs : noBacktick cs = true := by
      simp [noBacktick] at h ⊢
      exact h.2
    simp only [Scraper.stripJsonFenceGo]
    rw [if_neg (fenceJson_no_match cs hc)]
    rw [stripJsonFenceGo_id f cs hcs]

/-- On backtick-free text the scraper's second substitution is the identity. -/
theorem stripBareFenceGo_id : ∀ f cs, noBacktick cs = true → Scraper.stripBareFenceGo f cs = cs
  | 0, _, _ => rfl
  | _ + 1, [], _ => rfl
  | f + 1, c :: cs, h => by
    have hc : ¬c = btick := by
      simp [noBacktick] at h
      simpa using h.1
    have hcs : noBacktick cs = true := by
      simp [noBacktick] at h ⊢
      exact h.2
    simp only [Scraper.stripBareFenceGo]
    rw [if_neg (fenceBare_no_match cs hc)]
    rw [stripBareFenceGo_id f cs hcs]

/-- Simulation of the two scan loops.  While no close brace arrives at depth
zero, the scraper's stack is the analyzer's depth, and whenever the depth is
positive both machines carry the same start index; the two scans then agree
event for event, so the scraper returns `.ok` of exactly the value the
analyzer's loop returns, and raises when the analyzer's loop runs out. -/
theorem scraper_sim (orig : List Char) :
    ∀ rem i k st st2, noStrayGo k rem = true →
      (k = 0 → st = none) →
      (0 < k → st2 = st ∧ ∃ p, st = some p) →
      Scraper.scanGo orig rem i st2 k =
        (match Analyzer.scanGo orig rem i st (k : Int) with
         | some v => Except.ok v
         | none => Except.error "No se encontró JSON válido")
  | [], _, _, _, _, _, _, _ => rfl
  | c :: cs, i, k, st, st2, hns, h0, hpos => by
    simp only [Scraper.scanGo, Analyzer.scanGo]
    by_cases h1 : c = '{'
    · rw [if_pos h1, if_pos h1]
      rw [noStrayGo, if_pos h1] at hns
      have harg : (k : Int) + 1 = ((k + 1 : Nat) : Int) := by push_cast; ring
      rw [harg]
      refine scraper_sim orig cs (i + 1) (k + 1) _ _ hns (by omega) ?_
      intro _
      by_cases hk : k = 0
      · subst hk
        rw [h0 rfl]
        simp
      · have hk0 : 0 < k := Nat.pos_of_ne_zero hk
        obtain ⟨he, p, hp⟩ := hpos hk0
        rw [if_neg hk, he, hp]
        simp [hp]
    · rw [if_neg h1, if_neg h1]
      by_cases h2 : c = '}'
      · rw [if_pos h2, if_pos h2]
        rw [noStrayGo, if_neg h1, if_pos h2] at hns
        simp only [Bool.and_eq_true, decide_eq_true_eq] at hns
        obtain ⟨hk1, hns'⟩ := hns
        have hkpos : 0 < k := hk1
        obtain ⟨he, p, hp⟩ := hpos hkpos
        subst he
        rw [hp]
        dsimp only
        have hknz : ¬k = 0 := by omega
        rw [if_neg hknz]
        by_cases hk1' : k = 1
        · subst hk1'
          rw [if_pos rfl]
          have hd : ((1 : Nat) : Int) - 1 = 0 := by norm_num
          rw [if_pos hd]
          cases hj : jsonLoads (sliceTo orig p i) with
          | some v => rfl
          | none =>
            have := scraper_sim orig cs (i + 1) 0 none (some p) hns' (fun _ => rfl)
              (by omega)
            simpa using this
        · rw [if_neg hk1']
          have hd : ¬((k : Int) - 1 = 0) := by
            intro hcon
            apply hk1'
            omega
          rw [if_neg hd]
          have harg : (k : Int) - 1 = ((k - 1 : Nat) : Int) := by
            push_cast [Nat.cast_sub hk1]
            ring
          rw [harg]
          refine scraper_sim orig cs (i + 1) (k - 1) (some p) (some p) hns' (by omega) ?_
          intro _
          exact ⟨rfl, p, rfl⟩
      · rw [if_neg h2, if_neg h2]
        rw [noStrayGo, if_neg h1, if_neg h2] at hns
        exact scraper_sim orig cs (i + 1) k st st2 hns h0 hpos

/-- Core agreement statement: on backtick-free input whose stripped text
does not parse as a whole and has no stray close brace, the scraper returns
`.ok` of exactly what the analyzer returns, and raises exactly when the
analyzer returns `None`. -/
theorem impls_agree_core (s : String)
    (hb : noBacktick s.data = true)
    (hp : jsonLoads (pyStrip s.data) = none)
    (hn : noStray (pyStrip s.data) = true) :
    Scraper.clean_json_string s =
      (match Analyzer.clean_json_string s with
       | some v => Except.ok v
       | none => Except.error "No se encontró JSON válido") := by
  have hid1 : Scraper.stripJsonFence s.data = s.data := by
    unfold Scraper.stripJsonFence
    exact stripJsonFenceGo_id _ _ hb
  have hid2 : Scraper.stripBareFence s.data = s.data := by
    unfold Scraper.stripBareFence
    exact stripBareFenceGo_id _ _ hb
  have hid3 : Analyzer.stripFences s.data = s.data := by
    unfold Analyzer.stripFences
    exact stripFencesGo_id _ _ hb
  unfold Scraper.clean_json_string Analyzer.clean_json_string
  rw [hid1, hid2, hid3]
  show (match jsonLoads (pyStrip s.data) with
        | some v => Except.ok v
        | none => Scraper.scanGo (pyStrip s.data) (pyStrip s.data) 0 none 0) =
      (match (if s.data = [] then none
              else match Analyzer.scanGo (pyStrip s.data) (pyStrip s.data) 0 none 0 with
                   | some v => some v
                   | none => jsonLoads (pyStrip s.data)) with
       | some v => Except.ok v
       | none => Except.error "No se encontró JSON válido")
  rw [hp]
  by_cases hempty : s.data = []
  · rw [if_pos hempty, hempty]
    rfl
  · rw [if_neg hempty]
    have hsim := scraper_sim (pyStrip s.data) (pyStrip s.data) 0 0 none none hn
      (fun _ => rfl) (by omega)
    rw [Nat.cast_zero] at hsim
    rw [hsim]
    cases ha : Analyzer.scanGo (pyStrip s.data) (pyStrip s.data) 0 none 0 with
    | some v => rfl
    | none => rfl

/-! ## Round trip: parsing a canonical serialisation gives back the value -/

/-- Unpacking of `plainChar`. -/
theorem plainChar_spec (c : Char) (h : plainChar c = true) :
    32 ≤ c.toNat ∧ c.toNat ≤ 126 ∧ ¬c = '"' ∧ ¬c = '\\' ∧ ¬c = '{' ∧
      ¬c = '}' ∧ ¬c = btick := by
  simp only [plainChar, Bool.and_eq_true, decide_eq_true_eq, bne_iff_ne, ne_eq,
    Bool.not_eq_true', decide_eq_false_iff_not] at h
  exact ⟨h.1.1.1.1.1.1, h.1.1.1.1.1.2, h.1.1.1.1.2, h.1.1.1.2, h.1.1.2, h.1.2, h.2⟩

/-- A plain character prints as itself. -/
theorem escChar_plain (c : Char) (h : plainChar c = true) : escChar c = [c] := by
  obtain ⟨h32, h126, hq, hb, _, _, _⟩ := plainChar_spec c h
  have hn : ¬c = '\n' := by
    intro e
    rw [e] at h32
    have : Char.toNat '\n' = 10 := rfl
    omega
  have hr : ¬c = '\r' := by
    intro e
    rw [e] at h32
    have : Char.toNat '\r' = 13 := rfl
    omega
  have ht : ¬c = '\t' := by
    intro e
    rw [e] at h32
    have : Char.toNat '\t' = 9 := rfl
    omega
  have h8 : ¬c.toNat = 8 := by omega
  have h12 : ¬c.toNat = 12 := by omega
  have hrange : ¬(c.toNat < 32 || c.toNat > 126) = true := by
    simp only [Bool.or_eq_true, decide_eq_true_eq]
    omega
  unfold escChar
  rw [if_neg hq, if_neg hb, if_neg hn, if_neg hr, if_neg ht, if_neg h8, if_neg h12,
    if_neg hrange]

/-- Escaping a list of plain characters is the identity. -/
theorem foldr_esc_plain (l : List Char) (h : l.all plainChar = true) :
    l.foldr (fun c acc => escChar c ++ acc) ['"'] = l ++ ['"'] := by
  induction l with
  | nil => rfl
  | cons c l ih =>
    simp only [List.all_cons, Bool.and_eq_true] at h
    simp only [List.foldr_cons, List.cons_append]
    rw [escChar_plain c h.1, ih h.2]
    rfl

/-- A plain string prints as its characters between quotes. -/
theorem encStr_plain (s : String) (h : s.data.all plainChar = true) :
    encStr s = '"' :: (s.data ++ ['"']) := by
  unfold encStr
  rw [foldr_esc_plain s.data h]

/-- Taking digits from `ds ++ r` with `ds` all digits and `r` not starting
with one takes exactly `ds`. -/
theorem digitsTake_exact (ds r : List Char) (hds : ds.all Char.isDigit = true)
    (hr : noDigitHead r = true) : digitsTake (ds ++ r) = (ds, r) := by
  induction ds with
  | nil =>
    cases r with
    | nil => rfl
    | cons c rest =>
      simp only [noDigitHead, Bool.not_eq_true'] at hr
      simp [digitsTake, List.takeWhile, List.dropWhile, hr]
  | cons d ds ih =>
    simp only [List.all_cons, Bool.and_eq_true] at hds
    have ihh := ih hds.2
    simp only [digitsTake, Prod.mk.injEq] at ihh ⊢
    simp only [List.cons_append, List.takeWhile, List.dropWhile, hds.1,
      List.append_eq]
    exact ⟨by rw [ihh.1], by rw [ihh.2]⟩

/-- A string body made of plain characters parses back to itself. -/
theorem strBodyGo_plain : ∀ f sc rest, sc.all plainChar = true → sc.length < f →
    strBodyGo f (sc ++ '"' :: rest) = some (sc, rest)
  | 0, _, _, _, hf => by omega
  | f + 1, [], rest, _, _ => rfl
  | f + 1, c :: sc, rest, h, hf => by
    simp only [List.all_cons, Bool.and_eq_true] at h
    obtain ⟨h32, _, hq, hb, _, _, _⟩ := plainChar_spec c h.1
    simp only [List.cons_append, strBodyGo]
    rw [if_neg hq, if_neg hb, if_neg (by omega : ¬c.toNat < 32)]
    simp only [List.append_eq]
    have hlen : sc.length < f := by
      simp only [List.length_cons] at hf
      omega
    rw [strBodyGo_plain f sc rest h.2 hlen]
    rfl

/-- `strBody` on a plain string body. -/
theorem strBody_plain (sc rest : List Char) (h : sc.all plainChar = true) :
    strBody (sc ++ '"' :: rest) = some (sc, rest) := by
  unfold strBody
  apply strBodyGo_plain _ _ _ h
  simp [List.length_append]
  omega

/-- The digits taken are all digits. -/
theorem digitsTake_all (l : List Char) : (digitsTake l).1.all Char.isDigit = true := by
  induction l with
  | nil => rfl
  | cons c l ih =>
    simp only [digitsTake, List.takeWhile] at ih ⊢
    cases hd : c.isDigit with
    | false => rfl
    | true => simpa [hd] using ih

/-- The remainder after taking digits does not start with a digit. -/
theorem digitsTake_noDigitHead (l : List Char) : noDigitHead (digitsTake l).2 = true := by
  induction l with
  | nil => rfl
  | cons c l ih =>
    simp only [digitsTake, List.dropWhile] at ih ⊢
    cases hd : c.isDigit with
    | false => simp [noDigitHead, hd]
    | true => simpa [hd] using ih

/-- Unpacking of `fracShape`. -/
theorem fracShape_cases (r : List Char) (h : fracShape r = true) :
    r = [] ∨ ∃ fs, r = '.' :: fs ∧ fs ≠ [] ∧ fs.all Char.isDigit = true := by
  unfold fracShape at h
  by_cases h0 : r = []
  · exact Or.inl h0
  · rw [if_neg h0] at h
    by_cases h1 : r.head? = some '.'
    · rw [if_pos h1] at h
      simp only [Bool.and_eq_true, decide_eq_true_eq] at h
      cases r with
      | nil => exact absurd rfl h0
      | cons c t =>
        simp only [List.head?_cons, Option.some.injEq] at h1
        exact Or.inr ⟨t, by rw [h1], h.1, h.2⟩
    · rw [if_neg h1] at h
      exact absurd h (by simp)

/-- A separator head is not a digit. -/
theorem numSep_noDigitHead (r : List Char) (h : numSep r = true) :
    noDigitHead r = true := by
  cases r with
  | nil => rfl
  | cons c t =>
    simp only [numSep, Bool.or_eq_true, Bool.not_eq_true'] at h
    simp only [noDigitHead, Bool.not_eq_true']
    rcases Bool.or_eq_false_iff.mp h with ⟨h1, _⟩
    exact Bool.or_eq_false_iff.mp h1 |>.1 |> (fun x => Bool.or_eq_false_iff.mp x |>.1)

/-- A well-formed number literal followed by a separator is matched whole by
the number regex. -/
theorem numMatch_lit (lit : String) (rest : List Char) (hok : numLitOK lit = true)
    (hsep : numSep rest = true) :
    numMatch (lit.data ++ rest) = some (lit.data, rest) := by
  have hndr : noDigitHead rest = true := numSep_noDigitHead rest hsep
  simp only [numLitOK, Bool.and_eq_true, Bool.or_eq_true, decide_eq_true_eq] at hok
  obtain ⟨⟨h1, h2⟩, h3⟩ := hok
  set bd := if lit.data.head? = some '-' then lit.data.tail else lit.data with hbd
  set ds := (digitsTake bd).1 with hds
  set fr := (digitsTake bd).2 with hfr
  have hsplit : ds ++ fr = bd := List.takeWhile_append_dropWhile Char.isDigit bd
  have hdsall : ds.all Char.isDigit = true := digitsTake_all bd
  have hfrh : fr = [] ∨ ∃ fs, fr = '.' :: fs ∧ fs ≠ [] ∧ fs.all Char.isDigit = true :=
    fracShape_cases fr h3
  have hfrnd : noDigitHead (fr ++ rest) = true := by
    rcases hfrh with h | ⟨fs, hfs, _, _⟩
    · rw [h]; exact hndr
    · rw [hfs]; rfl
  -- the integer part consumes exactly ds
  have hint : numIntPart (bd ++ rest) = some (ds, fr ++ rest) := by
    rcases h2 with h20 | h2h
    · rw [← hsplit, h20]
      simp [numIntPart, List.cons_append, List.append_assoc]
    · cases hdsc : ds with
      | nil => exact absurd hdsc h1
      | cons d ds' =>
        have hd : d.isDigit = true := by
          rw [hdsc, List.all_cons, Bool.and_eq_true] at hdsall
          exact hdsall.1
        have hd0 : ¬d = '0' := by
          rw [hdsc] at h2h
          simp only [List.head?_cons, ne_eq, Option.some.injEq] at h2h
          exact fun e => h2h (by rw [e])
        rw [← hsplit, hdsc]
        simp only [List.cons_append, numIntPart, if_neg hd0, hd, if_pos rfl]
        have hds'all : ds'.all Char.isDigit = true := by
          rw [hdsc, List.all_cons, Bool.and_eq_true] at hdsall
          exact hdsall.2
        rw [List.append_assoc, digitsTake_exact ds' (fr ++ rest) hds'all hfrnd]
        simp
  -- the fraction part consumes exactly fr
  have hfrac : numFracPart (fr ++ rest) = (fr, rest) := by
    rcases hfrh with h | ⟨fs, hfs, hfsne, hfsall⟩
    · rw [h, List.nil_append]
      unfold numFracPart
      have : ¬rest.head? = some '.' := by
        cases rest with
        | nil => simp
        | cons c t =>
          simp only [numSep, Bool.or_eq_true, Bool.not_eq_true'] at hsep
          simp only [List.head?_cons, Option.some.injEq]
          intro e
          rw [e] at hsep
          simp at hsep
      rw [if_neg this]
    · rw [hfs]
      unfold numFracPart
      simp only [List.cons_append, List.head?_cons, Option.some.injEq, if_pos rfl,
        List.tail_cons]
      rw [digitsTake_exact fs rest hfsall hndr]
      simp only [if_neg hfsne]
      rcases hfsc : fs with _ | ⟨a, b⟩
      · exact absurd hfsc hfsne
      · simp
  -- the exponent part consumes nothing
  have hexp : numExpPart rest = ([], rest) := by
    cases rest with
    | nil => rfl
    | cons c t =>
      simp only [numSep, Bool.or_eq_true, Bool.not_eq_true'] at hsep
      unfold numExpPart
      have hce : ¬(c = 'e' || c = 'E') = true := by
        intro hcon
        simp only [Bool.or_eq_true, decide_eq_true_eq] at hcon
        rcases hcon with e | e <;> rw [e] at hsep <;> simp at hsep
      dsimp only
      rw [if_neg hce]
  -- assemble
  by_cases hm : lit.data.head? = some '-'
  · obtain ⟨tl, hld⟩ : ∃ tl, lit.data = '-' :: tl := by
      cases hcs : lit.data with
      | nil => rw [hcs] at hm; simp at hm
      | cons c tl =>
        rw [hcs] at hm
        simp only [List.head?_cons, Option.some.injEq] at hm
        exact ⟨tl, by rw [hm]⟩
    have hbd' : bd = tl := by rw [hbd, hld]; simp
    rw [hld]
    unfold numMatch
    rw [List.cons_append]
    rw [if_pos (show ('-' :: (tl ++ rest)).head? = some '-' from rfl)]
    dsimp only [List.tail_cons]
    rw [← hbd', hint]
    dsimp only
    rw [hfrac]
    dsimp only
    rw [hexp]
    dsimp only
    simp only [List.append_nil, List.singleton_append, List.cons_append,
      List.append_assoc, Option.some.injEq, Prod.mk.injEq, and_true]
    rw [hsplit]
    simp
  · have hbd' : bd = lit.data := by rw [hbd, if_neg hm]
    unfold numMatch
    have hm2 : ¬(lit.data ++ rest).head? = some '-' := by
      cases hdsc : ds with
      | nil => exact absurd hdsc h1
      | cons d ds' =>
        have hd : d.isDigit = true := by
          rw [hdsc, List.all_cons, Bool.and_eq_true] at hdsall
          exact hdsall.1
        have hbdne : bd = d :: (ds' ++ fr) := by
          rw [← hsplit, hdsc, List.cons_append]
        intro hcon
        rw [← hbd', hbdne, List.cons_append, List.head?_cons] at hcon
        simp only [Option.some.injEq] at hcon
        rw [hcon] at hd
        simp at hd
    rw [if_neg hm2]
    dsimp only
    rw [← hbd', hint]
    dsimp only
    rw [hfrac]
    dsimp only
    rw [hexp]
    dsimp only
    simp only [List.nil_append, List.append_nil, Option.some.injEq, Prod.mk.injEq,
      and_true]
    rw [hsplit, hbd']

/-- Fuel of a value is positive. -/
theorem fuelV_pos (v : JVal) : 1 ≤ fuelV v := by
  cases v <;> simp [fuelV]

/-- Fuel of a member list is positive. -/
theorem fuelO_pos (t : JObj) : 1 ≤ fuelO t := by
  cases t <;> simp [fuelO]

/-- Fuel of an element list is positive. -/
theorem fuelA_pos (t : JArr) : 1 ≤ fuelA t := by
  cases t <;> simp [fuelA]

/-- A prefix relation on conses forces equal heads. -/
theorem isPrefixOf_head {a b : Char} {as bs : List Char}
    (h : (a :: as).isPrefixOf (b :: bs) = true) : a = b := by
  rw [List.isPrefixOf_iff_prefix] at h
  exact (List.cons_prefix_cons.mp h).1

/-- A prefix relation on double conses forces the first two characters. -/
theorem isPrefixOf_head2 {a b c d : Char} {as bs : List Char}
    (h : (a :: b :: as).isPrefixOf (c :: d :: bs) = true) : a = c ∧ b = d := by
  rw [List.isPrefixOf_iff_prefix] at h
  obtain ⟨h1, h2⟩ := List.cons_prefix_cons.mp h
  exact ⟨h1, (List.cons_prefix_cons.mp h2).1⟩

/-- A keyword cannot be a prefix when the first characters differ. -/
theorem not_prefix_of_head {k c : Char} (ks cs : List Char) (h : ¬k = c) :
    ¬((k :: ks).isPrefixOf (c :: cs) = true) :=
  fun hp => h (isPrefixOf_head hp)

/-- Digits differ from any non-digit character. -/
theorem isDigit_ne {c : Char} (x : Char) (h : c.isDigit = true)
    (hx : x.isDigit = false) : ¬c = x := by
  intro e
  rw [e, hx] at h
  exact absurd h (by simp)

/-- A digit is not JSON whitespace. -/
theorem isDigit_not_ws {c : Char} (h : c.isDigit = true) : jsonWs c = false := by
  cases hws : jsonWs c with
  | false => rfl
  | true =>
    exfalso
    simp only [jsonWs, Bool.or_eq_true, decide_eq_true_eq] at hws
    rcases hws with ((e | e) | e) | e <;> rw [e] at h <;> exact absurd h (by decide)

/-- Head shape of a well-formed number literal: a digit, or a minus followed
by a digit. -/
theorem numLit_head (lit : String) (h : numLitOK lit = true) :
    ∃ c0 tl, lit.data = c0 :: tl ∧
      (c0.isDigit = true ∨ (c0 = '-' ∧ ∃ d tl2, tl = d :: tl2 ∧ d.isDigit = true)) := by
  simp only [numLitOK, Bool.and_eq_true, Bool.or_eq_true, decide_eq_true_eq] at h
  obtain ⟨⟨h1, _⟩, _⟩ := h
  set bd := if lit.data.head? = some '-' then lit.data.tail else lit.data with hbd
  have hsplit : (digitsTake bd).1 ++ (digitsTake bd).2 = bd :=
    List.takeWhile_append_dropWhile Char.isDigit bd
  have hall : (digitsTake bd).1.all Char.isDigit = true := digitsTake_all bd
  obtain ⟨d, ds', hds⟩ : ∃ d ds', (digitsTake bd).1 = d :: ds' := by
    cases hc : (digitsTake bd).1 with
    | nil => exact absurd hc h1
    | cons d ds' => exact ⟨d, ds', rfl⟩
  have hd : d.isDigit = true := by
    rw [hds, List.all_cons, Bool.and_eq_true] at hall
    exact hall.1
  have hbdshape : bd = d :: (ds' ++ (digitsTake bd).2) := by
    conv_lhs => rw [← hsplit]
    rw [hds, List.cons_append]
  by_cases hm : lit.data.head? = some '-'
  · cases hld : lit.data with
    | nil => rw [hld] at hm; simp at hm
    | cons c0 tl =>
      rw [hld] at hm
      simp only [List.head?_cons, Option.some.injEq] at hm
      have htl : tl = bd := by
        rw [hbd, hld, hm]
        simp
      refine ⟨c0, tl, rfl, Or.inr ⟨hm, d, ds' ++ (digitsTake bd).2, ?_, hd⟩⟩
      rw [htl]
      exact hbdshape
  · have heq : lit.data = bd := by rw [hbd, if_neg hm]
    exact ⟨d, ds' ++ (digitsTake bd).2, by rw [heq]; exact hbdshape, Or.inl hd⟩

/-- Head shape of a canonical serialisation: nonempty, a non-whitespace
head that is neither a close bracket nor a close brace nor a comma. -/
theorem dumpsV_shape (v : JVal) (h : wfV v = true) :
    ∃ c tl, dumpsV v = c :: tl ∧ jsonWs c = false ∧ ¬c = ']' ∧ ¬c = '}' ∧ ¬c = ',' := by
  cases v with
  | jnull => exact ⟨'n', _, rfl, by decide, by decide, by decide, by decide⟩
  | jbool b =>
    cases b with
    | true => exact ⟨'t', _, rfl, by decide, by decide, by decide, by decide⟩
    | false => exact ⟨'f', _, rfl, by decide, by decide, by decide, by decide⟩
  | jnum lit =>
    obtain ⟨c0, tl, hld, hcase⟩ := numLit_head lit (by simpa [wfV] using h)
    refine ⟨c0, tl, by simp [dumpsV, hld], ?_, ?_, ?_, ?_⟩
    · rcases hcase with hd | ⟨hm, _⟩
      · exact isDigit_not_ws hd
      · rw [hm]; decide
    · rcases hcase with hd | ⟨hm, _⟩
      · exact isDigit_ne _ hd (by decide)
      · rw [hm]; decide
    · rcases hcase with hd | ⟨hm, _⟩
      · exact isDigit_ne _ hd (by decide)
      · rw [hm]; decide
    · rcases hcase with hd | ⟨hm, _⟩
      · exact isDigit_ne _ hd (by decide)
      · rw [hm]; decide
  | jstr s =>
    exact ⟨'"', _, rfl, by decide, by decide, by decide, by decide⟩
  | jarr a =>
    cases a with
    | anil => exact ⟨'[', _, rfl, by decide, by decide, by decide, by decide⟩
    | acons v t =>
      exact ⟨'[', dumpsV v ++ (elemsTail t ++ [']']),
        by simp [dumpsV, List.cons_append, List.append_assoc], by decide, by decide,
        by decide, by decide⟩
  | jobj o =>
    cases o with
    | onil => exact ⟨'{', _, rfl, by decide, by decide, by decide, by decide⟩
    | ocons k v t =>
      exact ⟨'{', encStr k ++ ':' :: ' ' :: (dumpsV v ++ (memsTail t ++ ['}'])),
        by simp [dumpsV, List.cons_append, List.append_assoc], by decide, by decide,
        by decide, by decide⟩

/-- Whitespace skipping is the identity on a non-whitespace head. -/
theorem skipWs_cons_nws {c : Char} (cs : List Char) (h : jsonWs c = false) :
    skipWs (c :: cs) = c :: cs := by
  simp [skipWs, List.dropWhile, h]

/-- The separator after a value inside an object body. -/
theorem numSep_memsTail (t : JObj) (rest : List Char) :
    numSep (memsTail t ++ '}' :: rest) = true := by
  cases t with
  | onil => rfl
  | ocons k v t2 => rfl

/-- The separator after a value inside an array body. -/
theorem numSep_elemsTail (t : JArr) (rest : List Char) :
    numSep (elemsTail t ++ ']' :: rest) = true := by
  cases t with
  | anil => rfl
  | acons v t2 => rfl

/-- Injectivity of `some` on a disequality. -/
theorem some_head_ne {c x : Char} (h : ¬c = x) : ¬(some c = some x) :=
  fun e => h (Option.some.inj e)

/-- `true` is not a prefix unless the head is `t`. -/
theorem not_prefix_true {c : Char} (cs : List Char) (h : ¬c = 't') :
    ¬("true".data.isPrefixOf (c :: cs) = true) :=
  fun hp => h (isPrefixOf_head
    (show ('t' :: "rue".data).isPrefixOf (c :: cs) = true from hp)).symm

/-- `false` is not a prefix unless the head is `f`. -/
theorem not_prefix_false {c : Char} (cs : List Char) (h : ¬c = 'f') :
    ¬("false".data.isPrefixOf (c :: cs) = true) :=
  fun hp => h (isPrefixOf_head
    (show ('f' :: "alse".data).isPrefixOf (c :: cs) = true from hp)).symm

/-- `null` is not a prefix unless the head is `n`. -/
theorem not_prefix_null {c : Char} (cs : List Char) (h : ¬c = 'n') :
    ¬("null".data.isPrefixOf (c :: cs) = true) :=
  fun hp => h (isPrefixOf_head
    (show ('n' :: "ull".data).isPrefixOf (c :: cs) = true from hp)).symm

/-- `NaN` is not a prefix unless the head is `N`. -/
theorem not_prefix_nan {c : Char} (cs : List Char) (h : ¬c = 'N') :
    ¬("NaN".data.isPrefixOf (c :: cs) = true) :=
  fun hp => h (isPrefixOf_head
    (show ('N' :: "aN".data).isPrefixOf (c :: cs) = true from hp)).symm

/-- `Infinity` is not a prefix unless the head is `I`. -/
theorem not_prefix_inf {c : Char} (cs : List Char) (h : ¬c = 'I') :
    ¬("Infinity".data.isPrefixOf (c :: cs) = true) :=
  fun hp => h (isPrefixOf_head
    (show ('I' :: "nfinity".data).isPrefixOf (c :: cs) = true from hp)).symm

/-- `-Infinity` is not a prefix unless the head is `-`. -/
theorem not_prefix_negInf1 {c : Char} (cs : List Char) (h : ¬c = '-') :
    ¬("-Infinity".data.isPrefixOf (c :: cs) = true) :=
  fun hp => h (isPrefixOf_head
    (show ('-' :: "Infinity".data).isPrefixOf (c :: cs) = true from hp)).symm

/-- `-Infinity` is not a prefix unless the second character is `I`. -/
theorem not_prefix_negInf2 {c d : Char} (cs : List Char) (h : ¬d = 'I') :
    ¬("-Infinity".data.isPrefixOf (c :: d :: cs) = true) :=
  fun hp => h ((isPrefixOf_head2
    (show ('-' :: 'I' :: "nfinity".data).isPrefixOf (c :: d :: cs) = true from hp)).2.symm)

/-- Parsing a canonical serialisation returns the serialised value and
consumes exactly its text, at any sufficient fuel: the value level, the
object-member level and the array-element level, proved together by
induction on the fuel. -/
theorem parse_dumps : ∀ f,
    (∀ v rest, wfV v = true → fuelV v ≤ f → numSep rest = true →
        parseV f (dumpsV v ++ rest) = some (v, rest)) ∧
    (∀ k v t rest, k.data.all plainChar = true → wfV v = true → wfO t = true →
        fuelO (JObj.ocons k v t) ≤ f →
        parseMems f ('"' :: (k.data ++ ('"' :: ':' :: ' ' ::
            (dumpsV v ++ (memsTail t ++ '}' :: rest))))) =
          some (JObj.ocons k v t, rest)) ∧
    (∀ v t rest, wfV v = true → wfA t = true → fuelA (JArr.acons v t) ≤ f →
        parseElems f (dumpsV v ++ (elemsTail t ++ ']' :: rest)) =
          some (JArr.acons v t, rest)) := by
  intro f
  induction f with
  | zero =>
    refine ⟨?_, ?_, ?_⟩
    · intro v rest _ hf _
      exact absurd hf (by have := fuelV_pos v; omega)
    · intro k v t rest _ _ _ hf
      exact absurd hf (by have := fuelO_pos (JObj.ocons k v t); omega)
    · intro v t rest _ _ hf
      exact absurd hf (by have := fuelA_pos (JArr.acons v t); omega)
  | succ f ih =>
    obtain ⟨ihV, ihM, ihE⟩ := ih
    refine ⟨?_, ?_, ?_⟩
    · intro v rest hw hf hsep
      cases v with
      | jnull => simp [parseV, dumpsV]
      | jbool b => cases b <;> simp [parseV, dumpsV]
      | jnum lit =>
        have hok : numLitOK lit = true := by simpa [wfV] using hw
        obtain ⟨c0, tl, hld, hcase⟩ := numLit_head lit hok
        have hnm : numMatch (lit.data ++ rest) = some (lit.data, rest) :=
          numMatch_lit lit rest hok hsep
        simp only [dumpsV]
        rcases hcase with hd | ⟨hm, d, tl2, htl2, hd⟩
        · rw [hld, List.cons_append]
          simp only [parseV, List.head?_cons]
          rw [if_neg (some_head_ne (isDigit_ne _ hd (by decide))),
            if_neg (some_head_ne (isDigit_ne _ hd (by decide))),
            if_neg (some_head_ne (isDigit_ne _ hd (by decide))),
            if_neg (not_prefix_true _ (isDigit_ne _ hd (by decide))),
            if_neg (not_prefix_false _ (isDigit_ne _ hd (by decide))),
            if_neg (not_prefix_null _ (isDigit_ne _ hd (by decide))),
            if_neg (not_prefix_nan _ (isDigit_ne _ hd (by decide))),
            if_neg (not_prefix_inf _ (isDigit_ne _ hd (by decide))),
            if_neg (not_prefix_negInf1 _ (isDigit_ne _ hd (by decide)))]
          rw [← List.cons_append, ← hld, hnm]
          rfl
        · rw [htl2] at hld
          rw [hm] at hld
          rw [hld, List.cons_append, List.cons_append]
          simp only [parseV, List.head?_cons]
          rw [if_neg (some_head_ne (by decide)),
            if_neg (some_head_ne (by decide)),
            if_neg (some_head_ne (by decide)),
            if_neg (not_prefix_true _ (by decide)),
            if_neg (not_prefix_false _ (by decide)),
            if_neg (not_prefix_null _ (by decide)),
            if_neg (not_prefix_nan _ (by decide)),
            if_neg (not_prefix_inf _ (by decide)),
            if_neg (not_prefix_negInf2 _ (isDigit_ne _ hd (by decide)))]
          rw [← List.cons_append, ← List.cons_append, ← hld, hnm]
          rfl
      | jstr s =>
        have hpl : s.data.all plainChar = true := by simpa [wfV] using hw
        simp only [dumpsV]
        rw [encStr_plain s hpl, List.cons_append]
        simp only [parseV, List.head?_cons]
        rw [if_neg (some_head_ne (by decide)), if_neg (some_head_ne (by decide)),
          if_pos trivial]
        dsimp only [List.tail_cons]
        rw [List.append_assoc]
        rw [show (['"'] ++ rest : List Char) = '"' :: rest from rfl]
        rw [strBody_plain s.data rest hpl]
        rfl
      | jarr a =>
        cases a with
        | anil => simp [parseV, dumpsV, skipWs, List.dropWhile, jsonWs]
        | acons v t =>
          have hw' : wfV v = true ∧ wfA t = true := by
            simpa [wfV, wfA, Bool.and_eq_true] using hw
          have hfa : fuelA (JArr.acons v t) ≤ f := by
            simp only [fuelV] at hf
            omega
          obtain ⟨c, tl, hsh, hnws, hne1, _, _⟩ := dumpsV_shape v hw'.1
          simp only [dumpsV, List.cons_append, List.append_assoc,
            List.singleton_append, List.nil_append]
          simp only [parseV, List.head?_cons]
          rw [if_neg (some_head_ne (by decide)), if_pos trivial]
          dsimp only [List.tail_cons]
          rw [hsh, List.cons_append, skipWs_cons_nws _ hnws, List.head?_cons]
          rw [if_neg (some_head_ne hne1)]
          rw [← List.cons_append, ← hsh]
          rw [ihE v t rest hw'.1 hw'.2 hfa]
          rfl
      | jobj o =>
        cases o with
        | onil => simp [parseV, dumpsV, skipWs, List.dropWhile, jsonWs]
        | ocons k v t =>
          have hw' : k.data.all plainChar = true ∧ wfV v = true ∧ wfO t = true := by
            simpa [wfV, wfO, Bool.and_eq_true, and_assoc] using hw
          have hfo : fuelO (JObj.ocons k v t) ≤ f := by
            simp only [fuelV] at hf
            omega
          simp only [dumpsV]
          rw [encStr_plain k hw'.1]
          simp only [List.cons_append, List.append_assoc, List.singleton_append, List.nil_append]
          simp only [parseV, List.head?_cons]
          rw [if_pos trivial]
          dsimp only [List.tail_cons]
          rw [skipWs_cons_nws _ (by decide), List.head?_cons]
          rw [if_neg (some_head_ne (by decide))]
          rw [ihM k v t rest hw'.1 hw'.2.1 hw'.2.2 hfo]
          rfl
    · intro k v t rest hk hwv hwt hf
      have hfv : fuelV v ≤ f := by
        simp only [fuelO] at hf
        omega
      have hfo : fuelO t ≤ f := by
        simp only [fuelO] at hf
        omega
      obtain ⟨c, ctl, hsh, hnws, _, hneb, hnec⟩ := dumpsV_shape v hwv
      simp only [parseMems, List.head?_cons, if_pos rfl]
      dsimp only [List.tail_cons]
      rw [strBody_plain k.data _ hk]
      dsimp only
      rw [skipWs_cons_nws _ (by decide), List.head?_cons, if_pos rfl]
      dsimp only [List.tail_cons]
      rw [show skipWs (' ' :: (dumpsV v ++ (memsTail t ++ '}' :: rest))) =
          skipWs (dumpsV v ++ (memsTail t ++ '}' :: rest)) from rfl]
      rw [hsh, List.cons_append, skipWs_cons_nws _ hnws, ← List.cons_append, ← hsh]
      rw [ihV v _ hwv hfv (numSep_memsTail t rest)]
      dsimp only
      cases t with
      | onil =>
        rw [show (memsTail JObj.onil ++ '}' :: rest : List Char) = '}' :: rest
          from rfl]
        rw [skipWs_cons_nws _ (by decide), List.head?_cons]
        rw [if_neg (some_head_ne (by decide)), if_pos rfl]
        rfl
      | ocons k2 v2 t2 =>
        rw [show (memsTail (JObj.ocons k2 v2 t2) ++ '}' :: rest : List Char) =
            ',' :: ' ' :: (encStr k2 ++ ':' :: ' ' :: dumpsV v2 ++ memsTail t2 ++
              '}' :: rest) from by simp [memsTail, List.cons_append, List.append_assoc]]
        rw [skipWs_cons_nws _ (by decide), List.head?_cons, if_pos rfl]
        dsimp only [List.tail_cons]
        rw [show skipWs (' ' :: (encStr k2 ++ ':' :: ' ' :: dumpsV v2 ++ memsTail t2 ++
            '}' :: rest)) = skipWs (encStr k2 ++ ':' :: ' ' :: dumpsV v2 ++
            memsTail t2 ++ '}' :: rest) from rfl]
        have hwt' : k2.data.all plainChar = true ∧ wfV v2 = true ∧ wfO t2 = true := by
          simpa [wfO, Bool.and_eq_true, and_assoc] using hwt
        have hfo2 : fuelO (JObj.ocons k2 v2 t2) ≤ f := hfo
        rw [encStr_plain k2 hwt'.1]
        simp only [List.cons_append, List.append_assoc, List.singleton_append, List.nil_append]
        rw [skipWs_cons_nws _ (by decide)]
        rw [ihM k2 v2 t2 rest hwt'.1 hwt'.2.1 hwt'.2.2 hfo2]
        rfl
    · intro v t rest hwv hwt hf
      have hfv : fuelV v ≤ f := by
        simp only [fuelA] at hf
        omega
      simp only [parseElems]
      rw [ihV v _ hwv hfv (numSep_elemsTail t rest)]
      dsimp only
      cases t with
      | anil =>
        rw [show (elemsTail JArr.anil ++ ']' :: rest : List Char) = ']' :: rest
          from rfl]
        rw [skipWs_cons_nws _ (by decide), List.head?_cons]
        rw [if_neg (some_head_ne (by decide)), if_pos rfl]
        rfl
      | acons v2 t2 =>
        have hwt' : wfV v2 = true ∧ wfA t2 = true := by
          simpa [wfA, Bool.and_eq_true] using hwt
        have hfa2 : fuelA (JArr.acons v2 t2) ≤ f := by
          simp only [fuelA] at hf ⊢
          omega
        obtain ⟨c2, ctl2, hsh2, hnws2, _, _, _⟩ := dumpsV_shape v2 hwt'.1
        rw [show (elemsTail (JArr.acons v2 t2) ++ ']' :: rest : List Char) =
            ',' :: ' ' :: (dumpsV v2 ++ (elemsTail t2 ++ ']' :: rest)) from by
          simp [elemsTail, List.cons_append, List.append_assoc]]
        rw [skipWs_cons_nws _ (by decide), List.head?_cons, if_pos rfl]
        dsimp only [List.tail_cons]
        rw [show skipWs (' ' :: (dumpsV v2 ++ (elemsTail t2 ++ ']' :: rest))) =
            skipWs (dumpsV v2 ++ (elemsTail t2 ++ ']' :: rest)) from rfl]
        rw [hsh2, List.cons_append, skipWs_cons_nws _ hnws2, ← List.cons_append,
          ← hsh2]
        rw [ihE v2 t2 rest hwt'.1 hwt'.2 hfa2]
        rfl

mutual
/-- The serialisation is long enough to bound the fuel the parser needs. -/
theorem fuelV_le_dumps : ∀ v : JVal, fuelV v ≤ (dumpsV v).length + 1
  | .jnull => Nat.succ_le_succ (Nat.zero_le _)
  | .jbool true => Nat.succ_le_succ (Nat.zero_le _)
  | .jbool false => Nat.succ_le_succ (Nat.zero_le _)
  | .jnum _ => Nat.succ_le_succ (Nat.zero_le _)
  | .jstr _ => Nat.succ_le_succ (Nat.zero_le _)
  | .jarr .anil => by decide
  | .jarr (.acons v t) => by
    have h1 := fuelV_le_dumps v
    have h2 := fuelA_le_elems t
    simp only [fuelV, fuelA, dumpsV, elemsTail, List.length_cons,
      List.length_append] at *
    omega
  | .jobj .onil => by decide
  | .jobj (.ocons k v t) => by
    have h1 := fuelV_le_dumps v
    have h2 := fuelO_le_mems t
    simp only [fuelV, fuelO, dumpsV, memsTail, List.length_cons,
      List.length_append] at *
    omega

/-- The tail of a serialised array bounds the fuel for its elements. -/
theorem fuelA_le_elems : ∀ t : JArr, fuelA t ≤ (elemsTail t).length + 1
  | .anil => Nat.le_refl 1
  | .acons v t => by
    have h1 := fuelV_le_dumps v
    have h2 := fuelA_le_elems t
    simp only [fuelA, elemsTail, List.length_cons, List.length_append] at *
    omega

/-- The tail of a serialised object bounds the fuel for its members. -/
theorem fuelO_le_mems : ∀ t : JObj, fuelO t ≤ (memsTail t).length + 1
  | .onil => Nat.le_refl 1
  | .ocons k v t => by
    have h1 := fuelV_le_dumps v
    have h2 := fuelO_le_mems t
    simp only [fuelO, memsTail, List.length_cons, List.length_append] at *
    omega
end

/-- `json.loads` inverts `json.dumps` on well-formed values. -/
theorem jsonLoads_dumps (v : JVal) (hw : wfV v = true) :
    jsonLoads (dumpsV v) = some v := by
  obtain ⟨c, tl, hsh, hnws, _, _, _⟩ := dumpsV_shape v hw
  have hfl : fuelV v ≤ (dumpsV v).length + 1 := fuelV_le_dumps v
  have hp : parseV ((dumpsV v).length + 1) (dumpsV v ++ []) = some (v, []) :=
    (parse_dumps ((dumpsV v).length + 1)).1 v [] hw hfl rfl
  rw [List.append_nil] at hp
  show (match parseV ((dumpsV v).length + 1) (skipWs (dumpsV v)) with
    | some (v, rest) => if skipWs rest = [] then some v else none
    | none => none) = some v
  rw [hsh, skipWs_cons_nws _ hnws, ← hsh, hp]
  rfl

/-! ## Character classes of canonical serialisations -/

/-- No brace anywhere: the scan's depth bookkeeping ignores the segment. -/
def braceFree (cs : List Char) : Bool := cs.all (fun c => !(c = '{' || c = '}'))

/-- Monotonicity of `List.all` along a pointwise implication. -/
theorem all_imp {p q : Char → Bool} (l : List Char)
    (hpq : ∀ c, p c = true → q c = true) (h : l.all p = true) : l.all q = true := by
  rw [List.all_eq_true] at *
  exact fun c hc => hpq c (h c hc)

/-- Every character of a well-formed number literal is a digit, a minus
sign or a decimal point. -/
theorem numLitOK_chars (lit : String) (h : numLitOK lit = true) :
    lit.data.all (fun c => c.isDigit || c = '-' || c = '.') = true := by
  simp only [numLitOK, Bool.and_eq_true, decide_eq_true_eq] at h
  obtain ⟨_, hfs⟩ := h
  set bd := if lit.data.head? = some '-' then lit.data.tail else lit.data with hbd
  have hsplit : (digitsTake bd).1 ++ (digitsTake bd).2 = bd :=
    List.takeWhile_append_dropWhile Char.isDigit bd
  have hall : (digitsTake bd).1.all Char.isDigit = true := digitsTake_all bd
  have hb1 : (digitsTake bd).1.all (fun c => c.isDigit || c = '-' || c = '.') = true :=
    all_imp _ (fun c hc => by simp [hc]) hall
  have hb2 : (digitsTake bd).2.all (fun c => c.isDigit || c = '-' || c = '.') = true := by
    rcases fracShape_cases _ hfs with hnil | ⟨fs, hfs2, _, hfsall⟩
    · rw [hnil]
      rfl
    · rw [hfs2, List.all_cons, Bool.and_eq_true]
      exact ⟨by decide, all_imp _ (fun c hc => by simp [hc]) hfsall⟩
  have hbd_all : bd.all (fun c => c.isDigit || c = '-' || c = '.') = true := by
    rw [← hsplit, List.all_append, Bool.and_eq_true]
    exact ⟨hb1, hb2⟩
  by_cases hm : lit.data.head? = some '-'
  · rw [if_pos hm] at hbd
    cases hd : lit.data with
    | nil => rfl
    | cons c t =>
      rw [hd] at hm
      simp only [List.head?_cons, Option.some.injEq] at hm
      rw [hd, List.tail_cons] at hbd
      rw [List.all_cons, hm, Bool.and_eq_true]
      rw [hbd] at hbd_all
      exact ⟨by decide, hbd_all⟩
  · rw [if_neg hm] at hbd
    rw [hbd] at hbd_all
    exact hbd_all

/-- A number-literal character is neither a brace nor a backtick. -/
theorem numChar_inert (c : Char) (hc : (c.isDigit || c = '-' || c = '.') = true) :
    (!(c = '{' || c = '}')) = true ∧ (!(c = btick)) = true := by
  simp only [Bool.or_eq_true, decide_eq_true_eq] at hc
  rcases hc with (hd | he) | he
  · exact ⟨by
      simp only [Bool.not_eq_true', Bool.or_eq_false_iff, decide_eq_false_iff_not]
      exact ⟨isDigit_ne _ hd (by decide), isDigit_ne _ hd (by decide)⟩,
      by
      simp only [Bool.not_eq_true', decide_eq_false_iff_not]
      exact isDigit_ne _ hd (by decide)⟩
  · rw [he]
    exact ⟨by decide, by decide⟩
  · rw [he]
    exact ⟨by decide, by decide⟩

/-- A well-formed number literal contains no brace. -/
theorem numLit_braceFree (lit : String) (h : numLitOK lit = true) :
    braceFree lit.data = true :=
  all_imp _ (fun c hc => (numChar_inert c hc).1) (numLitOK_chars lit h)

/-- A well-formed number literal contains no backtick. -/
theorem numLit_noBacktick (lit : String) (h : numLitOK lit = true) :
    noBacktick lit.data = true :=
  all_imp _ (fun c hc => (numChar_inert c hc).2) (numLitOK_chars lit h)

/-- A string of plain characters serialises without braces. -/
theorem encStr_braceFree (s : String) (h : s.data.all plainChar = true) :
    braceFree (encStr s) = true := by
  rw [encStr_plain s h]
  unfold braceFree
  rw [List.all_cons, List.all_append, Bool.and_eq_true, Bool.and_eq_true]
  refine ⟨by decide, ?_, by decide⟩
  exact all_imp _ (fun c hc => by
    obtain ⟨_, _, _, _, h5, h6, _⟩ := plainChar_spec c hc
    simp only [Bool.not_eq_true', Bool.or_eq_false_iff, decide_eq_false_iff_not]
    exact ⟨h5, h6⟩) h

/-- A string of plain characters serialises without backticks. -/
theorem encStr_noBacktick (s : String) (h : s.data.all plainChar = true) :
    noBacktick (encStr s) = true := by
  rw [encStr_plain s h]
  unfold noBacktick
  rw [List.all_cons, List.all_append, Bool.and_eq_true, Bool.and_eq_true]
  refine ⟨by decide, ?_, by decide⟩
  exact all_imp _ (fun c hc => by
    obtain ⟨_, _, _, _, _, _, h7⟩ := plainChar_spec c hc
    simp only [Bool.not_eq_true', decide_eq_false_iff_not]
    exact h7) h

mutual
/-- A well-formed value serialises without backticks, so fence stripping
leaves its serialisation untouched. -/
theorem dumpsV_noBacktick : ∀ v, wfV v = true → noBacktick (dumpsV v) = true
  | .jnull, _ => by decide
  | .jbool true, _ => by decide
  | .jbool false, _ => by decide
  | .jnum lit, h => numLit_noBacktick lit h
  | .jstr s, h => encStr_noBacktick s h
  | .jarr .anil, _ => by decide
  | .jarr (.acons v t), h => by
    have hw : wfV v = true ∧ wfA t = true := by
      simpa [wfV, wfA, Bool.and_eq_true] using h
    have h1 := dumpsV_noBacktick v hw.1
    have h2 := elemsTail_noBacktick t hw.2
    simp only [dumpsV, noBacktick, List.cons_append, List.all_cons,
      List.all_append, Bool.and_eq_true] at h1 h2 ⊢
    exact ⟨by decide, ⟨h1, h2⟩, by decide⟩
  | .jobj .onil, _ => by decide
  | .jobj (.ocons k v t), h => by
    have h' := h
    rw [show wfV (JVal.jobj (JObj.ocons k v t)) =
      (k.data.all plainChar && wfV v && wfO t) from rfl, Bool.and_eq_true,
      Bool.and_eq_true] at h'
    have h0 := encStr_noBacktick k h'.1.1
    have h1 := dumpsV_noBacktick v h'.1.2
    have h2 := memsTail_noBacktick t h'.2
    simp only [dumpsV, noBacktick, List.cons_append, List.all_cons,
      List.all_append, Bool.and_eq_true] at h0 h1 h2 ⊢
    exact ⟨by decide, ⟨⟨h0, by decide, by decide, h1⟩, h2⟩, by decide⟩

/-- The serialised tail of a well-formed array has no backticks. -/
theorem elemsTail_noBacktick : ∀ t, wfA t = true → noBacktick (elemsTail t) = true
  | .anil, _ => by decide
  | .acons v t, h => by
    have hw : wfV v = true ∧ wfA t = true := by
      simpa [wfA, Bool.and_eq_true] using h
    have h1 := dumpsV_noBacktick v hw.1
    have h2 := elemsTail_noBacktick t hw.2
    simp only [elemsTail, noBacktick, List.all_cons, List.all_append,
      Bool.and_eq_true] at h1 h2 ⊢
    exact ⟨by decide, by decide, h1, h2⟩

/-- The serialised tail of a well-formed object has no backticks. -/
theorem memsTail_noBacktick : ∀ t, wfO t = true → noBacktick (memsTail t) = true
  | .onil, _ => by decide
  | .ocons k v t, h => by
    have h' := h
    rw [show wfO (JObj.ocons k v t) =
      (k.data.all plainChar && wfV v && wfO t) from rfl, Bool.and_eq_true,
      Bool.and_eq_true] at h'
    have h0 := encStr_noBacktick k h'.1.1
    have h1 := dumpsV_noBacktick v h'.1.2
    have h2 := memsTail_noBacktick t h'.2
    simp only [memsTail, noBacktick, List.all_cons, List.all_append,
      Bool.and_eq_true] at h0 h1 h2 ⊢
    exact ⟨by decide, by decide, ⟨h0, by decide, by decide, h1⟩, h2⟩
end

/-! ## The scan walks inert segments without changing its state -/

/-- The scan steps over a brace-free segment, leaving start and depth
untouched and advancing the index by the segment's length. -/
theorem scanGo_walk_bf (orig : List Char) :
    ∀ seg rest i st d, braceFree seg = true →
      Analyzer.scanGo orig (seg ++ rest) i st d =
        Analyzer.scanGo orig rest (i + seg.length) st d
  | [], rest, i, st, d, _ => by simp
  | c :: seg, rest, i, st, d, h => by
    have h' := h
    unfold braceFree at h'
    rw [List.all_cons, Bool.and_eq_true] at h'
    have hc : ¬c = '{' ∧ ¬c = '}' := by simpa using h'.1
    simp only [List.cons_append, Analyzer.scanGo, List.append_eq]
    rw [if_neg hc.1, if_neg hc.2]
    rw [scanGo_walk_bf orig seg rest (i + 1) st d h'.2]
    rw [show i + 1 + seg.length = i + (c :: seg).length from by
      simp only [List.length_cons]
      omega]

/-- `dropWhile` stops before a segment whose first character fails the
predicate. -/
theorem dropWhile_append_nb (p : Char → Bool) :
    ∀ (a rest : List Char), (∀ c, rest.head? = some c → p c = false) →
      List.dropWhile p (a ++ rest) = List.dropWhile p a ++ rest
  | [], rest, h => by
    cases hr : rest with
    | nil => rfl
    | cons c r =>
      have hc := h c (by rw [hr]; rfl)
      simp [List.dropWhile_cons, hc]
  | x :: a, rest, h => by
    simp only [List.cons_append, List.dropWhile_cons]
    cases hx : p x with
    | false => simp
    | true =>
      simp only [if_true]
      exact dropWhile_append_nb p a rest h

/-- Python `strip()` of a text around a segment with non-whitespace first
and last characters: the middle segment survives verbatim. -/
theorem pyStrip_decomp (a mid b : List Char) (m1 m2 : Char)
    (h1 : mid.head? = some m1) (hw1 : pyWs m1 = false)
    (h2 : mid.reverse.head? = some m2) (hw2 : pyWs m2 = false) :
    pyStrip (a ++ (mid ++ b)) =
      List.dropWhile pyWs a ++ (mid ++ (List.dropWhile pyWs b.reverse).reverse) := by
  unfold pyStrip
  have e1 : List.dropWhile pyWs (a ++ (mid ++ b)) =
      List.dropWhile pyWs a ++ (mid ++ b) := by
    refine dropWhile_append_nb pyWs a (mid ++ b) (fun c hc => ?_)
    cases mid with
    | nil => exact absurd h1 (by simp)
    | cons x xs =>
      simp only [List.cons_append, List.head?_cons, Option.some.injEq] at hc h1
      rw [← hc, h1]
      exact hw1
  rw [e1, List.reverse_append, List.reverse_append]
  have e2 : List.dropWhile pyWs (b.reverse ++
      (mid.reverse ++ (List.dropWhile pyWs a).reverse)) =
      List.dropWhile pyWs b.reverse ++
        (mid.reverse ++ (List.dropWhile pyWs a).reverse) := by
    refine dropWhile_append_nb pyWs _ _ (fun c hc => ?_)
    cases hm : mid.reverse with
    | nil => exact absurd (hm ▸ h2) (by simp)
    | cons x xs =>
      rw [hm] at h2
      rw [hm] at hc
      simp only [List.cons_append, List.head?_cons, Option.some.injEq] at hc h2
      rw [← hc, h2]
      exact hw2
  rw [List.append_assoc, e2]
  simp [List.reverse_append, List.reverse_reverse, List.append_assoc]

/-- One scan step on an open brace: record or keep the start, go deeper. -/
theorem scanGo_open (orig cs : List Char) (i : Nat) (st : Option Nat) (d : Int) :
    Analyzer.scanGo orig ('{' :: cs) i st d =
      Analyzer.scanGo orig cs (i + 1) (if st = none then some i else st) (d + 1) := by
  simp [Analyzer.scanGo]

/-- One scan step on a close brace that does not return the depth to zero:
the start marker is kept and no candidate is attempted. -/
theorem scanGo_close_pos (orig cs : List Char) (i s0 : Nat) (d : Int)
    (hd : ¬(d - 1 = 0)) :
    Analyzer.scanGo orig ('}' :: cs) i (some s0) d =
      Analyzer.scanGo orig cs (i + 1) (some s0) (d - 1) := by
  simp only [Analyzer.scanGo]
  rw [if_neg (by decide : ¬ ('}' = '{')), if_pos trivial]
  rw [if_neg hd]

/-- One scan step on a close brace at depth one: the recorded candidate is
handed to `json.loads`, and the scan continues afresh only on failure. -/
theorem scanGo_close_fire (orig cs : List Char) (i s0 : Nat) (d : Int)
    (hd : d - 1 = 0) :
    Analyzer.scanGo orig ('}' :: cs) i (some s0) d =
      (match jsonLoads (sliceTo orig s0 i) with
       | some v => some v
       | none => Analyzer.scanGo orig cs (i + 1) none 0) := by
  simp only [Analyzer.scanGo]
  rw [if_neg (by decide : ¬ ('}' = '{')), if_pos trivial]
  rw [if_pos hd]

mutual
/-- At positive depth the scan walks over a whole well-formed serialised
value: every close brace inside it returns the depth to a value that is
still positive, so no candidate parse fires and the start marker is kept. -/
theorem scan_walk_V : ∀ (orig : List Char) (v : JVal) (rest : List Char)
    (i s0 : Nat) (d : Int), wfV v = true → 0 < d →
    Analyzer.scanGo orig (dumpsV v ++ rest) i (some s0) d =
      Analyzer.scanGo orig rest (i + (dumpsV v).length) (some s0) d
  | orig, .jnull, rest, i, s0, d, _, _ =>
    scanGo_walk_bf orig "null".data rest i _ _ (by decide)
  | orig, .jbool true, rest, i, s0, d, _, _ =>
    scanGo_walk_bf orig "true".data rest i _ _ (by decide)
  | orig, .jbool false, rest, i, s0, d, _, _ =>
    scanGo_walk_bf orig "false".data rest i _ _ (by decide)
  | orig, .jnum lit, rest, i, s0, d, h, _ =>
    scanGo_walk_bf orig lit.data rest i _ _ (numLit_braceFree lit h)
  | orig, .jstr s, rest, i, s0, d, h, _ =>
    scanGo_walk_bf orig (encStr s) rest i _ _ (encStr_braceFree s h)
  | orig, .jarr .anil, rest, i, s0, d, _, _ =>
    scanGo_walk_bf orig "[]".data rest i _ _ (by decide)
  | orig, .jarr (.acons v t), rest, i, s0, d, h, hd => by
    have h' := h
    rw [show wfV (JVal.jarr (JArr.acons v t)) = (wfV v && wfA t) from rfl,
      Bool.and_eq_true] at h'
    conv_lhs => simp only [dumpsV, List.cons_append, List.append_assoc,
      List.singleton_append, List.nil_append]
    rw [show ('[' :: (dumpsV v ++ (elemsTail t ++ ']' :: rest)) : List Char) =
        ['['] ++ (dumpsV v ++ (elemsTail t ++ ([']'] ++ rest))) from rfl]
    rw [scanGo_walk_bf orig ['['] _ _ _ _ (by decide)]
    rw [scan_walk_V orig v _ _ _ _ h'.1 hd]
    rw [scan_walk_A orig t _ _ _ _ h'.2 hd]
    rw [scanGo_walk_bf orig [']'] _ _ _ _ (by decide)]
    rw [show i + (['['] : List Char).length + (dumpsV v).length +
        (elemsTail t).length + ([']'] : List Char).length =
        i + (dumpsV (JVal.jarr (JArr.acons v t))).length from by
      simp only [dumpsV, List.length_cons, List.length_append, List.length_nil]
      omega]
  | orig, .jobj .onil, rest, i, s0, d, _, hd => by
    show Analyzer.scanGo orig ('{' :: '}' :: rest) i (some s0) d = _
    rw [scanGo_open]
    rw [show (if (some s0 : Option Nat) = none then some i else some s0) = some s0
      from by simp]
    rw [scanGo_close_pos orig rest (i + 1) s0 (d + 1) (by omega)]
    rw [show d + 1 - 1 = d from by omega]
    rw [show (dumpsV (JVal.jobj JObj.onil)).length = 2 from rfl]
  | orig, .jobj (.ocons k v t), rest, i, s0, d, h, hd => by
    have h' := h
    rw [show wfV (JVal.jobj (JObj.ocons k v t)) =
      (k.data.all plainChar && wfV v && wfO t) from rfl, Bool.and_eq_true,
      Bool.and_eq_true] at h'
    conv_lhs => simp only [dumpsV, List.cons_append, List.append_assoc,
      List.singleton_append, List.nil_append]
    rw [scanGo_open]
    rw [show (if (some s0 : Option Nat) = none then some i else some s0) = some s0
      from by simp]
    rw [show encStr k ++ ':' :: ' ' :: (dumpsV v ++ (memsTail t ++ '}' :: rest)) =
        (encStr k ++ [':', ' ']) ++ (dumpsV v ++ (memsTail t ++ ('}' :: rest)))
        from by simp [List.append_assoc]]
    rw [scanGo_walk_bf orig (encStr k ++ [':', ' ']) _ _ _ _ (by
      unfold braceFree
      rw [List.all_append, Bool.and_eq_true]
      exact ⟨encStr_braceFree k h'.1.1, by decide⟩)]
    rw [scan_walk_V orig v _ _ _ _ h'.1.2 (by omega : (0:Int) < d + 1)]
    rw [scan_walk_O orig t _ _ _ _ h'.2 (by omega : (0:Int) < d + 1)]
    rw [scanGo_close_pos _ _ _ _ _ (by omega)]
    rw [show d + 1 - 1 = d from by omega]
    rw [show i + 1 + (encStr k ++ [':', ' ']).length + (dumpsV v).length +
        (memsTail t).length + 1 =
        i + (dumpsV (JVal.jobj (JObj.ocons k v t))).length from by
      simp only [dumpsV, List.length_cons, List.length_append, List.length_nil]
      omega]

/-- At positive depth the scan walks over a serialised array tail. -/
theorem scan_walk_A : ∀ (orig : List Char) (t : JArr) (rest : List Char)
    (i s0 : Nat) (d : Int), wfA t = true → 0 < d →
    Analyzer.scanGo orig (elemsTail t ++ rest) i (some s0) d =
      Analyzer.scanGo orig rest (i + (elemsTail t).length) (some s0) d
  | orig, .anil, rest, i, s0, d, _, _ => by simp [elemsTail]
  | orig, .acons v t, rest, i, s0, d, h, hd => by
    have h' := h
    rw [show wfA (JArr.acons v t) = (wfV v && wfA t) from rfl,
      Bool.and_eq_true] at h'
    conv_lhs => simp only [elemsTail, List.cons_append, List.append_assoc]
    rw [show (',' :: ' ' :: (dumpsV v ++ (elemsTail t ++ rest)) : List Char) =
        [',', ' '] ++ (dumpsV v ++ (elemsTail t ++ rest)) from rfl]
    rw [scanGo_walk_bf orig [',', ' '] _ _ _ _ (by decide)]
    rw [scan_walk_V orig v _ _ _ _ h'.1 hd]
    rw [scan_walk_A orig t _ _ _ _ h'.2 hd]
    rw [show i + ([',', ' '] : List Char).length + (dumpsV v).length +
        (elemsTail t).length = i + (elemsTail (JArr.acons v t)).length from by
      simp only [elemsTail, List.length_cons, List.length_append, List.length_nil]
      omega]

/-- At positive depth the scan walks over a serialised object tail. -/
theorem scan_walk_O : ∀ (orig : List Char) (t : JObj) (rest : List Char)
    (i s0 : Nat) (d : Int), wfO t = true → 0 < d →
    Analyzer.scanGo orig (memsTail t ++ rest) i (some s0) d =
      Analyzer.scanGo orig rest (i + (memsTail t).length) (some s0) d
  | orig, .onil, rest, i, s0, d, _, _ => by simp [memsTail]
  | orig, .ocons k v t, rest, i, s0, d, h, hd => by
    have h' := h
    rw [show wfO (JObj.ocons k v t) =
      (k.data.all plainChar && wfV v && wfO t) from rfl, Bool.and_eq_true,
      Bool.and_eq_true] at h'
    conv_lhs => simp only [memsTail, List.cons_append, List.append_assoc]
    rw [show (',' :: ' ' :: (encStr k ++ ':' :: ' ' :: (dumpsV v ++ (memsTail t ++ rest))) : List Char) =
        (',' :: ' ' :: (encStr k ++ [':', ' '])) ++ (dumpsV v ++ (memsTail t ++ rest))
        from by simp [List.append_assoc]]
    rw [scanGo_walk_bf orig (',' :: ' ' :: (encStr k ++ [':', ' '])) _ _ _ _ (by
      unfold braceFree
      simp only [List.all_cons, List.all_append, Bool.and_eq_true]
      exact ⟨by decide, by decide, encStr_braceFree k h'.1.1, by decide⟩)]
    rw [scan_walk_V orig v _ _ _ _ h'.1.2 hd]
    rw [scan_walk_O orig t _ _ _ _ h'.2 hd]
    rw [show i + (',' :: ' ' :: (encStr k ++ [':', ' '])).length + (dumpsV v).length +
        (memsTail t).length = i + (memsTail (JObj.ocons k v t)).length from by
      simp only [memsTail, List.length_cons, List.length_append, List.length_nil]
      omega]
end

/-- On a non-object value the `isObj` test is refuted. -/
theorem isObj_shape (v : JVal) (ho : v.isObj = true) : ∃ o, v = JVal.jobj o := by
  cases v with
  | jobj o => exact ⟨o, rfl⟩
  | jnull => exact Bool.noConfusion ho
  | jbool b => exact Bool.noConfusion ho
  | jnum lit => exact Bool.noConfusion ho
  | jstr s => exact Bool.noConfusion ho
  | jarr a => exact Bool.noConfusion ho

/-- Scanning a well-formed serialised object at depth zero and no recorded
start fires the candidate parse exactly at the closing brace of the object,
with the candidate equal to the whole serialisation, which parses back to
the object itself. -/
theorem scan_fires (orig : List Char) (v : JVal) (rest : List Char) (i : Nat)
    (hw : wfV v = true) (ho : v.isObj = true)
    (horig : (orig.drop i).take (dumpsV v).length = dumpsV v) :
    Analyzer.scanGo orig (dumpsV v ++ rest) i none 0 = some v := by
  obtain ⟨o, rfl⟩ := isObj_shape v ho
  cases o with
  | onil =>
    show Analyzer.scanGo orig ('{' :: '}' :: rest) i none 0 = _
    rw [scanGo_open]
    rw [show (if (none : Option Nat) = none then some i else none) = some i
      from by simp]
    rw [scanGo_close_fire orig rest (i + 1) i (0 + 1) (by omega)]
    rw [show sliceTo orig i (i + 1) = (orig.drop i).take 2 from by
      unfold sliceTo
      congr 1
      omega]
    rw [show ((orig.drop i).take 2 : List Char) = dumpsV (JVal.jobj JObj.onil)
      from horig]
    rw [jsonLoads_dumps _ hw]
  | ocons k v t =>
    have h' := hw
    rw [show wfV (JVal.jobj (JObj.ocons k v t)) =
      (k.data.all plainChar && wfV v && wfO t) from rfl, Bool.and_eq_true,
      Bool.and_eq_true] at h'
    conv_lhs => simp only [dumpsV, List.cons_append, List.append_assoc,
      List.singleton_append, List.nil_append]
    rw [scanGo_open]
    rw [show (if (none : Option Nat) = none then some i else none) = some i
      from by simp]
    rw [show encStr k ++ ':' :: ' ' :: (dumpsV v ++ (memsTail t ++ '}' :: rest)) =
        (encStr k ++ [':', ' ']) ++ (dumpsV v ++ (memsTail t ++ ('}' :: rest)))
        from by simp [List.append_assoc]]
    rw [scanGo_walk_bf orig (encStr k ++ [':', ' ']) _ _ _ _ (by
      unfold braceFree
      rw [List.all_append, Bool.and_eq_true]
      exact ⟨encStr_braceFree k h'.1.1, by decide⟩)]
    rw [scan_walk_V orig v _ _ _ _ h'.1.2 (by omega : (0:Int) < 0 + 1)]
    rw [scan_walk_O orig t _ _ _ _ h'.2 (by omega : (0:Int) < 0 + 1)]
    rw [scanGo_close_fire _ _ _ _ _ (by omega : (0:Int) + 1 - 1 = 0)]
    rw [show sliceTo orig i (i + 1 + (encStr k ++ [':', ' ']).length +
        (dumpsV v).length + (memsTail t).length) =
        (orig.drop i).take (dumpsV (JVal.jobj (JObj.ocons k v t))).length from by
      unfold sliceTo
      congr 1
      simp only [dumpsV, List.length_cons, List.length_append, List.length_nil]
      omega]
    rw [horig]
    rw [jsonLoads_dumps _ hw]

/-- A brace-free predicate survives dropping a whitespace prefix. -/
theorem braceFree_dropWhile (pre : List Char) (h : braceFree pre = true) :
    braceFree (List.dropWhile pyWs pre) = true := by
  unfold braceFree at h ⊢
  rw [List.all_eq_true] at h ⊢
  intro c hc
  exact h c ((List.dropWhile_sublist _).subset hc)

/-- After fence stripping, the strip-scan-fallback pipeline of the analyzer
recovers a well-formed object embedded after brace-free noise. -/
theorem stripped_scan_recovers (pre post : List Char) (v : JVal)
    (hw : wfV v = true) (ho : v.isObj = true) (hpre_bf : braceFree pre = true) :
    (match Analyzer.scanGo (pyStrip (pre ++ (dumpsV v ++ post)))
        (pyStrip (pre ++ (dumpsV v ++ post))) 0 none 0 with
      | some w => some w
      | none => jsonLoads (pyStrip (pre ++ (dumpsV v ++ post)))) = some v := by
  obtain ⟨o, ho'⟩ := isObj_shape v ho
  have hhead : (dumpsV v).head? = some '{' := by
    rw [ho']
    cases o with
    | onil => rfl
    | ocons k v' t => simp [dumpsV]
  have hlast : (dumpsV v).reverse.head? = some '}' := by
    rw [ho']
    cases o with
    | onil => rfl
    | ocons k v' t => simp [dumpsV, List.reverse_append]
  rw [pyStrip_decomp pre (dumpsV v) post '{' '}' hhead (by decide) hlast (by decide)]
  rw [scanGo_walk_bf _ (List.dropWhile pyWs pre) _ 0 none 0
    (braceFree_dropWhile pre hpre_bf)]
  rw [scan_fires _ v _ _ hw ho (by
    rw [show (0 : Nat) + (List.dropWhile pyWs pre).length =
      (List.dropWhile pyWs pre).length from by omega]
    rw [List.drop_left, List.take_left])]

/-- The analyzer's recovery on brace-free, backtick-free noise around a
well-formed serialised object returns exactly that object. -/
theorem clean_recovers (pre post : List Char) (v : JVal)
    (hw : wfV v = true) (ho : v.isObj = true)
    (hpre_bf : braceFree pre = true) (hpre_nb : noBacktick pre = true)
    (hpost_nb : noBacktick post = true) :
    Analyzer.clean_json_string ⟨pre ++ (dumpsV v ++ post)⟩ = some v := by
  obtain ⟨o, ho'⟩ := isObj_shape v ho
  have hhead : (dumpsV v).head? = some '{' := by
    rw [ho']
    cases o with
    | onil => rfl
    | ocons k v' t => simp [dumpsV]
  have hne : ¬(pre ++ (dumpsV v ++ post) = []) := by
    intro he
    rw [List.append_eq_nil] at he
    rw [List.append_eq_nil] at he
    rw [he.2.1] at hhead
    exact Option.noConfusion hhead
  have hnb : noBacktick (pre ++ (dumpsV v ++ post)) = true := by
    unfold noBacktick at *
    rw [List.all_append, List.all_append, Bool.and_eq_true, Bool.and_eq_true]
    exact ⟨hpre_nb, dumpsV_noBacktick v hw, hpost_nb⟩
  unfold Analyzer.clean_json_string
  rw [if_neg hne]
  show (match Analyzer.scanGo
      (pyStrip (Analyzer.stripFences (pre ++ (dumpsV v ++ post))))
      (pyStrip (Analyzer.stripFences (pre ++ (dumpsV v ++ post)))) 0 none 0 with
    | some w => some w
    | none => jsonLoads (pyStrip (Analyzer.stripFences (pre ++ (dumpsV v ++ post))))) =
      some v
  rw [show Analyzer.stripFences (pre ++ (dumpsV v ++ post)) =
    pre ++ (dumpsV v ++ post) from stripFencesGo_id _ _ hnb]
  exact stripped_scan_recovers pre post v hw ho hpre_bf

/-! ## Fence stripping around a fenced block -/

/-- The analyzer's fence stripper copies a backtick-free segment verbatim. -/
theorem stripFencesGo_copy : ∀ (a : List Char) (f : Nat) (rest : List Char),
    noBacktick a = true → a.length ≤ f →
    Analyzer.stripFencesGo f (a ++ rest) =
      a ++ Analyzer.stripFencesGo (f - a.length) rest
  | [], f, rest, _, _ => by simp
  | x :: a, f, rest, h, hf => by
    have h' := h
    unfold noBacktick at h'
    rw [List.all_cons, Bool.and_eq_true] at h'
    have hx : ¬x = btick := by simpa using h'.1
    cases f with
    | zero => exact absurd hf (by simp)
    | succ f =>
      simp only [List.cons_append, Analyzer.stripFencesGo, List.append_eq]
      rw [if_neg (fenceJson_no_match _ hx), if_neg (fenceBare_no_match _ hx)]
      rw [stripFencesGo_copy a f rest h'.2
        (by simp only [List.length_cons] at hf; omega)]
      rw [show f - a.length = f + 1 - (x :: a).length from by
        simp only [List.length_cons]
        omega]

/-- The analyzer's fence stripper deletes a `json`-tagged fence marker. -/
theorem stripFencesGo_json_step (f : Nat) (b : List Char) (hf : 1 ≤ f) :
    Analyzer.stripFencesGo f ("```json".data ++ b) =
      Analyzer.stripFencesGo (f - 1) b := by
  cases f with
  | zero => omega
  | succ f =>
    rw [show ("```json".data ++ b : List Char) = btick :: ("``json".data ++ b)
      from rfl]
    simp only [Analyzer.stripFencesGo]
    rw [if_pos (show ("```json".data).isPrefixOf
        (btick :: ("``json".data ++ b)) = true from by
      rw [show (btick :: ("``json".data ++ b) : List Char) = "```json".data ++ b
        from rfl]
      rw [List.isPrefixOf_iff_prefix]
      exact List.prefix_append _ _)]
    rw [show ((btick :: ("``json".data ++ b)).drop 7 : List Char) = b from by
      rw [show (btick :: ("``json".data ++ b) : List Char) = "```json".data ++ b
        from rfl]
      rw [show (7 : Nat) = ("```json".data).length from rfl]
      exact List.drop_left _ _]
    rw [Nat.add_sub_cancel]

/-- The analyzer's fence stripper deletes a bare fence marker whenever the
following text does not continue it into a `json`-tagged marker. -/
theorem stripFencesGo_bare_step (f : Nat) (b : List Char) (hf : 1 ≤ f)
    (hjb : "json".data.isPrefixOf b = false) :
    Analyzer.stripFencesGo f ("```".data ++ b) =
      Analyzer.stripFencesGo (f - 1) b := by
  cases f with
  | zero => omega
  | succ f =>
    rw [show ("```".data ++ b : List Char) = btick :: ("``".data ++ b) from rfl]
    simp only [Analyzer.stripFencesGo]
    rw [if_neg (show ¬(("```json".data).isPrefixOf
        (btick :: ("``".data ++ b)) = true) from by
      rw [show ("```json".data).isPrefixOf (btick :: ("``".data ++ b)) =
        ("json".data).isPrefixOf b from rfl]
      rw [hjb]
      exact fun h => Bool.noConfusion h)]
    rw [if_pos (show ("```".data).isPrefixOf (btick :: ("``".data ++ b)) = true
        from by
      rw [show (btick :: ("``".data ++ b) : List Char) = "```".data ++ b from rfl]
      rw [List.isPrefixOf_iff_prefix]
      exact List.prefix_append _ _)]
    rw [show ((btick :: ("``".data ++ b)).drop 3 : List Char) = b from by
      rw [show (btick :: ("``".data ++ b) : List Char) = "```".data ++ b from rfl]
      rw [show (3 : Nat) = ("```".data).length from rfl]
      exact List.drop_left _ _]
    rw [Nat.add_sub_cancel]

/-- The analyzer's `re.sub` on a text with one fenced block: exactly the two
markers disappear, every other character survives unchanged. -/
theorem stripFences_fence (a b c : List Char) (ha : noBacktick a = true)
    (hb : noBacktick b = true) (hc : noBacktick c = true)
    (hjc : "json".data.isPrefixOf c = false) :
    Analyzer.stripFences (a ++ ("```json".data ++ (b ++ ("```".data ++ c)))) =
      a ++ (b ++ c) := by
  unfold Analyzer.stripFences
  have hLlen : (a ++ ("```json".data ++ (b ++ ("```".data ++ c)))).length =
      a.length + (7 + (b.length + (3 + c.length))) := by
    simp only [List.length_append, show ("```json".data).length = 7 from rfl,
      show ("```".data).length = 3 from rfl]
  rw [stripFencesGo_copy a _ _ ha (by omega)]
  rw [stripFencesGo_json_step _ _ (by omega)]
  rw [stripFencesGo_copy b _ _ hb (by omega)]
  rw [stripFencesGo_bare_step _ _ (by omega) hjc]
  rw [stripFencesGo_id _ _ hc]

/-- The scraper's `json`-fence stripper copies a backtick-free segment. -/
theorem stripJsonFenceGo_copy : ∀ (a : List Char) (f : Nat) (rest : List Char),
    noBacktick a = true → a.length ≤ f →
    Scraper.stripJsonFenceGo f (a ++ rest) =
      a ++ Scraper.stripJsonFenceGo (f - a.length) rest
  | [], f, rest, _, _ => by simp
  | x :: a, f, rest, h, hf => by
    have h' := h
    unfold noBacktick at h'
    rw [List.all_cons, Bool.and_eq_true] at h'
    have hx : ¬x = btick := by simpa using h'.1
    cases f with
    | zero => exact absurd hf (by simp)
    | succ f =>
      simp only [List.cons_append, Scraper.stripJsonFenceGo, List.append_eq]
      rw [if_neg (fenceJson_no_match _ hx)]
      rw [stripJsonFenceGo_copy a f rest h'.2
        (by simp only [List.length_cons] at hf; omega)]
      rw [show f - a.length = f + 1 - (x :: a).length from by
        simp only [List.length_cons]
        omega]

/-- The scraper's `json`-fence stripper deletes a marker and the whitespace
run after it. -/
theorem stripJsonFenceGo_json_step (f : Nat) (b : List Char) (hf : 1 ≤ f) :
    Scraper.stripJsonFenceGo f ("```json".data ++ b) =
      Scraper.stripJsonFenceGo (f - 1) (b.dropWhile pyWs) := by
  cases f with
  | zero => omega
  | succ f =>
    rw [show ("```json".data ++ b : List Char) = btick :: ("``json".data ++ b)
      from rfl]
    simp only [Scraper.stripJsonFenceGo]
    rw [if_pos (show ("```json".data).isPrefixOf
        (btick :: ("``json".data ++ b)) = true from by
      rw [show (btick :: ("``json".data ++ b) : List Char) = "```json".data ++ b
        from rfl]
      rw [List.isPrefixOf_iff_prefix]
      exact List.prefix_append _ _)]
    rw [show ((btick :: ("``json".data ++ b)).drop 7 : List Char) = b from by
      rw [show (btick :: ("``json".data ++ b) : List Char) = "```json".data ++ b
        from rfl]
      rw [show (7 : Nat) = ("```json".data).length from rfl]
      exact List.drop_left _ _]
    rw [Nat.add_sub_cancel]

/-- A bare closing fence with no `json` tag after it passes through the
scraper's `json`-fence stripper unchanged. -/
theorem stripJsonFenceGo_ticks (f : Nat) (c : List Char)
    (hc : noBacktick c = true) (hjc : "json".data.isPrefixOf c = false) :
    Scraper.stripJsonFenceGo f ("```".data ++ c) = "```".data ++ c := by
  have hpf3 : ("```json".data).isPrefixOf (btick :: btick :: btick :: c) = false := by
    rw [show ("```json".data).isPrefixOf (btick :: btick :: btick :: c) =
      ("json".data).isPrefixOf c from rfl]
    exact hjc
  have hhead : ∀ x xs, c = x :: xs → (btick == x) = false := by
    intro x xs he
    rw [he] at hc
    unfold noBacktick at hc
    rw [List.all_cons, Bool.and_eq_true] at hc
    have : ¬x = btick := by simpa using hc.1
    exact beq_eq_false_iff_ne.mpr (fun e => this e.symm)
  have hpf2 : ("```json".data).isPrefixOf (btick :: btick :: c) = false := by
    cases hcc : c with
    | nil => rfl
    | cons x xs =>
      rw [show ("```json".data).isPrefixOf (btick :: btick :: x :: xs) =
        ((btick == x) && (("json".data).isPrefixOf xs)) from rfl]
      rw [hhead x xs hcc, Bool.false_and]
  have hpf1 : ("```json".data).isPrefixOf (btick :: c) = false := by
    cases hcc : c with
    | nil => rfl
    | cons x xs =>
      rw [show ("```json".data).isPrefixOf (btick :: x :: xs) =
        ((btick == x) && (("`json".data).isPrefixOf xs)) from rfl]
      rw [hhead x xs hcc, Bool.false_and]
  cases f with
  | zero => rfl
  | succ f1 =>
    rw [show ("```".data ++ c : List Char) = btick :: (btick :: btick :: c)
      from rfl]
    simp only [Scraper.stripJsonFenceGo]
    rw [if_neg (ne_true_of_eq_false hpf3)]
    cases f1 with
    | zero => rfl
    | succ f2 =>
      simp only [Scraper.stripJsonFenceGo]
      rw [if_neg (ne_true_of_eq_false hpf2)]
      cases f2 with
      | zero => rfl
      | succ f3 =>
        simp only [Scraper.stripJsonFenceGo]
        rw [if_neg (ne_true_of_eq_false hpf1)]
        rw [stripJsonFenceGo_id f3 c hc]

/-- The scraper's bare-fence stripper copies a backtick-free segment. -/
theorem stripBareFenceGo_copy : ∀ (a : List Char) (f : Nat) (rest : List Char),
    noBacktick a = true → a.length ≤ f →
    Scraper.stripBareFenceGo f (a ++ rest) =
      a ++ Scraper.stripBareFenceGo (f - a.length) rest
  | [], f, rest, _, _ => by simp
  | x :: a, f, rest, h, hf => by
    have h' := h
    unfold noBacktick at h'
    rw [List.all_cons, Bool.and_eq_true] at h'
    have hx : ¬x = btick := by simpa using h'.1
    cases f with
    | zero => exact absurd hf (by simp)
    | succ f =>
      simp only [List.cons_append, Scraper.stripBareFenceGo, List.append_eq]
      rw [if_neg (fenceBare_no_match _ hx)]
      rw [stripBareFenceGo_copy a f rest h'.2
        (by simp only [List.length_cons] at hf; omega)]
      rw [show f - a.length = f + 1 - (x :: a).length from by
        simp only [List.length_cons]
        omega]

/-- The scraper's bare-fence stripper deletes a marker and the whitespace
run after it. -/
theorem stripBareFenceGo_bare_step (f : Nat) (b : List Char) (hf : 1 ≤ f) :
    Scraper.stripBareFenceGo f ("```".data ++ b) =
      Scraper.stripBareFenceGo (f - 1) (b.dropWhile pyWs) := by
  cases f with
  | zero => omega
  | succ f =>
    rw [show ("```".data ++ b : List Char) = btick :: ("``".data ++ b) from rfl]
    simp only [Scraper.stripBareFenceGo]
    rw [if_pos (show ("```".data).isPrefixOf (btick :: ("``".data ++ b)) = true
        from by
      rw [show (btick :: ("``".data ++ b) : List Char) = "```".data ++ b from rfl]
      rw [List.isPrefixOf_iff_prefix]
      exact List.prefix_append _ _)]
    rw [show ((btick :: ("``".data ++ b)).drop 3 : List Char) = b from by
      rw [show (btick :: ("``".data ++ b) : List Char) = "```".data ++ b from rfl]
      rw [show (3 : Nat) = ("```".data).length from rfl]
      exact List.drop_left _ _]
    rw [Nat.add_sub_cancel]

/-- `noBacktick` survives dropping a whitespace prefix. -/
theorem noBacktick_dropWhile (l : List Char) (h : noBacktick l = true) :
    noBacktick (List.dropWhile pyWs l) = true := by
  unfold noBacktick at h ⊢
  rw [List.all_eq_true] at h ⊢
  intro c hc
  exact h c ((List.dropWhile_sublist _).subset hc)

/-- The scraper's two `re.sub` calls on a text with one fenced block: the
markers and the whitespace runs directly after them disappear, every other
character survives unchanged. -/
theorem scraper_strip_fence (a b c : List Char) (ha : noBacktick a = true)
    (hb : noBacktick b = true) (hc : noBacktick c = true)
    (hjc : "json".data.isPrefixOf c = false) :
    Scraper.stripBareFence (Scraper.stripJsonFence
        (a ++ ("```json".data ++ (b ++ ("```".data ++ c))))) =
      a ++ (b.dropWhile pyWs ++ c.dropWhile pyWs) := by
  have hLlen : (a ++ ("```json".data ++ (b ++ ("```".data ++ c)))).length =
      a.length + (7 + (b.length + (3 + c.length))) := by
    simp only [List.length_append, show ("```json".data).length = 7 from rfl,
      show ("```".data).length = 3 from rfl]
  have hdw : ((b ++ ("```".data ++ c)).dropWhile pyWs : List Char) =
      b.dropWhile pyWs ++ ("```".data ++ c) := by
    refine dropWhile_append_nb pyWs b ("```".data ++ c) (fun ch hch => ?_)
    rw [show (("```".data ++ c : List Char)).head? = some btick from by
      rw [show ("```".data ++ c : List Char) = btick :: ("``".data ++ c) from rfl]
      rfl] at hch
    rw [← Option.some.inj hch]
    rfl
  have hdwlen : (b.dropWhile pyWs).length ≤ b.length :=
    (List.dropWhile_sublist _).length_le
  unfold Scraper.stripJsonFence
  rw [stripJsonFenceGo_copy a _ _ ha (by omega)]
  rw [stripJsonFenceGo_json_step _ _ (by omega)]
  rw [hdw]
  rw [stripJsonFenceGo_copy (b.dropWhile pyWs) _ _
    (noBacktick_dropWhile b hb) (by omega)]
  rw [stripJsonFenceGo_ticks _ c hc hjc]
  unfold Scraper.stripBareFence
  have hL2 : (a ++ (b.dropWhile pyWs ++ ("```".data ++ c))).length =
      a.length + ((b.dropWhile pyWs).length + (3 + c.length)) := by
    simp only [List.length_append, show ("```".data).length = 3 from rfl]
  rw [stripBareFenceGo_copy a _ _ ha (by omega)]
  rw [stripBareFenceGo_copy (b.dropWhile pyWs) _ _
    (noBacktick_dropWhile b hb) (by omega)]
  rw [stripBareFenceGo_bare_step _ c (by omega)]
  rw [stripBareFenceGo_id _ _ (noBacktick_dropWhile c hc)]

/-- The analyzer's recovery on a `json`-fenced canonical object surrounded
by brace-free, backtick-free prose returns exactly that object. -/
theorem clean_fenced_recovers (p1 p2 : List Char) (v : JVal)
    (hw : wfV v = true) (ho : v.isObj = true)
    (h1b : noBacktick p1 = true) (h1f : braceFree p1 = true)
    (h2b : noBacktick p2 = true)
    (hjp : "json".data.isPrefixOf p2 = false) :
    Analyzer.clean_json_string
      ⟨p1 ++ ("```json".data ++
        (('\n' :: (dumpsV v ++ ['\n'])) ++ ("```".data ++ p2)))⟩ = some v := by
  have hvnb := dumpsV_noBacktick v hw
  have hbnb : noBacktick ('\n' :: (dumpsV v ++ ['\n'])) = true := by
    unfold noBacktick at hvnb ⊢
    rw [List.all_cons, List.all_append, Bool.and_eq_true, Bool.and_eq_true]
    exact ⟨by decide, hvnb, by decide⟩
  have hne : ¬(p1 ++ ("```json".data ++
      (('\n' :: (dumpsV v ++ ['\n'])) ++ ("```".data ++ p2))) = []) := by
    intro he
    rw [List.append_eq_nil, List.append_eq_nil] at he
    exact absurd he.2.1 (by decide)
  unfold Analyzer.clean_json_string
  rw [if_neg hne]
  show (match Analyzer.scanGo
      (pyStrip (Analyzer.stripFences (p1 ++ ("```json".data ++
        (('\n' :: (dumpsV v ++ ['\n'])) ++ ("```".data ++ p2))))))
      (pyStrip (Analyzer.stripFences (p1 ++ ("```json".data ++
        (('\n' :: (dumpsV v ++ ['\n'])) ++ ("```".data ++ p2)))))) 0 none 0 with
    | some w => some w
    | none => jsonLoads (pyStrip (Analyzer.stripFences (p1 ++ ("```json".data ++
        (('\n' :: (dumpsV v ++ ['\n'])) ++ ("```".data ++ p2))))))) = some v
  rw [stripFences_fence p1 ('\n' :: (dumpsV v ++ ['\n'])) p2 h1b hbnb h2b hjp]
  rw [show p1 ++ (('\n' :: (dumpsV v ++ ['\n'])) ++ p2) =
      (p1 ++ ['\n']) ++ (dumpsV v ++ ('\n' :: p2)) from by
    simp [List.append_assoc, List.cons_append]]
  exact stripped_scan_recovers (p1 ++ ['\n']) ('\n' :: p2) v hw ho (by
    unfold braceFree at h1f ⊢
    rw [List.all_append, Bool.and_eq_true]
    exact ⟨h1f, by decide⟩)

/-! ## The numeric normaliser on digit strings with magnitude words -/

/-- ASCII digits are unchanged by `str.lower`. -/
theorem isDigit_toLower (c : Char) (h : c.isDigit = true) : c.toLower = c := by
  simp only [Char.isDigit, Bool.and_eq_true, decide_eq_true_eq] at h
  unfold Char.toLower
  have h1 : c.toNat ≤ 57 := h.2
  rw [if_neg (by omega)]

/-- A digit is not Python whitespace. -/
theorem isDigit_not_pyWs (c : Char) (h : c.isDigit = true) : pyWs c = false := by
  unfold pyWs
  simp only [Bool.or_eq_false_iff, decide_eq_false_iff_not]
  and_intros <;> exact isDigit_ne _ h (by decide)

/-- A digit string without a fraction is worth its integer value. -/
theorem ratDigits_int (ds : List Char) : ratDigits ds [] = (natOfDigits ds : ℚ) := by
  unfold ratDigits
  norm_num [natOfDigits]

/-- Lowercasing is the identity on a digit string. -/
theorem digits_map_toLower (ds : List Char) (h : ds.all Char.isDigit = true) :
    ds.map Char.toLower = ds := by
  induction ds with
  | nil => rfl
  | cons d ds ih =>
    rw [List.all_cons, Bool.and_eq_true] at h
    rw [List.map_cons, isDigit_toLower d h.1, ih h.2]

/-- Comma removal is the identity on a digit string. -/
theorem digits_filter_comma (ds : List Char) (h : ds.all Char.isDigit = true) :
    ds.filter (fun c => c ≠ ',') = ds := by
  rw [List.filter_eq_self]
  intro a ha
  rw [List.all_eq_true] at h
  have := h a ha
  simpa using isDigit_ne ',' this (by decide)

/-- `strip()` is the identity when both ends are non-whitespace. -/
theorem pyStrip_id (l : List Char) (c1 c2 : Char)
    (h1 : l.head? = some c1) (hw1 : pyWs c1 = false)
    (h2 : l.reverse.head? = some c2) (hw2 : pyWs c2 = false) :
    pyStrip l = l := by
  have h := pyStrip_decomp [] l [] c1 c2 h1 hw1 h2 hw2
  simpa using h

/-- The number regex matches a whole digit string followed by anything that
extends neither the integer part nor a fraction. -/
theorem matchNumAt_exact (ds rest : List Char) (hne : ds ≠ [])
    (hds : ds.all Char.isDigit = true) (hnd : noDigitHead rest = true)
    (hdot : ¬(rest.head? = some '.')) :
    matchNumAt (ds ++ rest) = some (ds, [], rest) := by
  cases ds with
  | nil => exact absurd rfl hne
  | cons d ds =>
    have hd : d.isDigit = true := by
      rw [List.all_cons, Bool.and_eq_true] at hds
      exact hds.1
    simp only [List.cons_append, matchNumAt, List.head?_cons]
    rw [if_pos hd]
    rw [← List.cons_append, digitsTake_exact (d :: ds) rest hds hnd]
    rw [if_neg hdot]

/-- The literal-anchored number search succeeds at the first position when
the digits are followed by the literal after optional whitespace. -/
theorem reSearchNumLit_hit (lit ds rest : List Char) (hne : ds ≠ [])
    (hds : ds.all Char.isDigit = true) (hnd : noDigitHead rest = true)
    (hdot : ¬(rest.head? = some '.'))
    (hpre : lit.isPrefixOf (rest.dropWhile pyWs) = true) :
    reSearchNumLit lit (ds ++ rest) = some (ds, []) := by
  cases ds with
  | nil => exact absurd rfl hne
  | cons d ds =>
    simp only [List.cons_append, reSearchNumLit, List.append_eq]
    rw [← List.cons_append, matchNumAt_exact (d :: ds) rest (by simp) hds hnd hdot]
    dsimp only
    rw [if_pos hpre]

/-- The literal-anchored number search fails on digits followed by a
remainder on which the literal check and every later search fail. -/
theorem reSearchNumLit_digits_skip (lit : List Char) :
    ∀ (ds : List Char), ds.all Char.isDigit = true →
    ∀ (rest : List Char), noDigitHead rest = true →
      ¬(rest.head? = some '.') →
      lit.isPrefixOf (rest.dropWhile pyWs) = false →
      reSearchNumLit lit rest = none →
      reSearchNumLit lit (ds ++ rest) = none
  | [], _, rest, _, _, _, hrest => by simpa using hrest
  | d :: ds, hds, rest, hnd, hdot, hpre, hrest => by
    have hds' : ds.all Char.isDigit = true := by
      rw [List.all_cons, Bool.and_eq_true] at hds
      exact hds.2
    simp only [List.cons_append, reSearchNumLit, List.append_eq]
    rw [← List.cons_append, matchNumAt_exact (d :: ds) rest (by simp) hds hnd hdot]
    dsimp only
    rw [if_neg (ne_true_of_eq_false hpre)]
    exact reSearchNumLit_digits_skip lit ds hds' rest hnd hdot hpre hrest

/-- The bare number search succeeds at the first position of a digit run. -/
theorem reSearchNum_hit (ds rest : List Char) (hne : ds ≠ [])
    (hds : ds.all Char.isDigit = true) (hnd : noDigitHead rest = true)
    (hdot : ¬(rest.head? = some '.')) :
    reSearchNum (ds ++ rest) = some (ds, []) := by
  cases ds with
  | nil => exact absurd rfl hne
  | cons d ds =>
    simp only [List.cons_append, reSearchNum, List.append_eq]
    rw [← List.cons_append, matchNumAt_exact (d :: ds) rest (by simp) hds hnd hdot]

/-- The preprocessing pipeline of `to_number_simple` leaves a digit string
followed by a lowercase suffix untouched, given the concrete suffix is
already lowercase, comma-free and whitespace-trimmed. -/
theorem preprocess_digits (ds sfx : List Char) (hne : ds ≠ [])
    (hds : ds.all Char.isDigit = true)
    (hmapsfx : sfx.map Char.toLower = sfx)
    (hfilsfx : sfx.filter (fun c => c ≠ ',') = sfx)
    (hsfxrev : sfx = [] ∨ ∃ c2, sfx.reverse.head? = some c2 ∧ pyWs c2 = false) :
    pyStrip (((ds ++ sfx).map Char.toLower).filter (fun c => c ≠ ',')) =
      ds ++ sfx := by
  rw [List.map_append, digits_map_toLower ds hds, hmapsfx]
  rw [List.filter_append, digits_filter_comma ds hds, hfilsfx]
  obtain ⟨d, ds', rfl⟩ : ∃ d ds', ds = d :: ds' := by
    cases ds with
    | nil => exact absurd rfl hne
    | cons d ds' => exact ⟨d, ds', rfl⟩
  have hd : d.isDigit = true := by
    rw [List.all_cons, Bool.and_eq_true] at hds
    exact hds.1
  have hlast : ∃ c2, ((d :: ds') ++ sfx).reverse.head? = some c2 ∧ pyWs c2 = false := by
    rcases hsfxrev with hnil | ⟨c2, hc2, hw2⟩
    · subst hnil
      rw [List.append_nil]
      cases hr : (d :: ds').reverse with
      | nil => exact absurd hr (by simp)
      | cons e es =>
        refine ⟨e, by simp [hr], ?_⟩
        have he : e ∈ d :: ds' := by
          have h2 : e ∈ (d :: ds').reverse := by
            rw [hr]
            exact List.mem_cons_self e es
          exact List.mem_reverse.mp h2
        rw [List.all_eq_true] at hds
        exact isDigit_not_pyWs e (hds e he)
    · refine ⟨c2, ?_, hw2⟩
      rw [List.reverse_append]
      cases hs : sfx.reverse with
      | nil => exact absurd (hs ▸ hc2) (by simp)
      | cons x xs =>
        rw [hs] at hc2
        simp only [List.head?_cons] at hc2 ⊢
        simpa [List.cons_append] using hc2
  obtain ⟨c2, hc2, hw2⟩ := hlast
  exact pyStrip_id _ d c2 (by simp) (isDigit_not_pyWs d hd) hc2 hw2

/-- `to_number_simple` on `"<digits> millones de pesos"`: the number times
one million, for every digit string. -/
theorem to_number_mill (ds : List Char) (hne : ds ≠ [])
    (hds : ds.all Char.isDigit = true) :
    to_number_simple (.pstr ⟨ds ++ " millones de pesos".data⟩) =
      some ((natOfDigits ds : ℚ) * 1000000) := by
  have hstrip := preprocess_digits ds (" millones de pesos".data) hne hds rfl rfl
    (Or.inr ⟨'s', by decide, by decide⟩)
  have hlen : 1 ≤ ds.length := by
    cases ds with
    | nil => exact absurd rfl hne
    | cons d ds' => simp
  simp only [to_number_simple]
  simp only [hstrip]
  rw [if_neg (by
    simp only [Bool.or_eq_true, decide_eq_true_eq, not_or]
    refine ⟨⟨⟨?_, ?_⟩, ?_⟩, ?_⟩ <;>
      (intro he
       apply congrArg List.length at he
       simp only [List.length_append,
         show (" millones de pesos".data).length = 18 from rfl] at he
       simp only [List.length_nil, show ("null".data).length = 4 from rfl,
         show ("none".data).length = 4 from rfl,
         show ("-".data).length = 1 from rfl] at he
       omega))]
  rw [reSearchNumLit_hit ("mill".data) ds (" millones de pesos".data) hne hds
    (by decide) (by decide) (by decide)]
  dsimp only
  rw [ratDigits_int]

/-- `to_number_simple` on `"<digits> mil pesos"`: the `mill` search fails at
every position and the `mil` search succeeds, giving the number times one
thousand, for every digit string. -/
theorem to_number_mil (ds : List Char) (hne : ds ≠ [])
    (hds : ds.all Char.isDigit = true) :
    to_number_simple (.pstr ⟨ds ++ " mil pesos".data⟩) =
      some ((natOfDigits ds : ℚ) * 1000) := by
  have hstrip := preprocess_digits ds (" mil pesos".data) hne hds rfl rfl
    (Or.inr ⟨'s', by decide, by decide⟩)
  have hlen : 1 ≤ ds.length := by
    cases ds with
    | nil => exact absurd rfl hne
    | cons d ds' => simp
  simp only [to_number_simple]
  simp only [hstrip]
  rw [if_neg (by
    simp only [Bool.or_eq_true, decide_eq_true_eq, not_or]
    refine ⟨⟨⟨?_, ?_⟩, ?_⟩, ?_⟩ <;>
      (intro he
       apply congrArg List.length at he
       simp only [List.length_append,
         show (" mil pesos".data).length = 10 from rfl] at he
       simp only [List.length_nil, show ("null".data).length = 4 from rfl,
         show ("none".data).length = 4 from rfl,
         show ("-".data).length = 1 from rfl] at he
       omega))]
  rw [reSearchNumLit_digits_skip ("mill".data) ds hds (" mil pesos".data)
    (by decide) (by decide) (by decide) rfl]
  rw [reSearchNumLit_hit ("mil".data) ds (" mil pesos".data) hne hds
    (by decide) (by decide) (by decide)]
  dsimp only
  rw [ratDigits_int]

/-- `to_number_simple` on a bare digit string: the magnitude searches fail
and the bare number search returns the digits' value, for every digit
string that is not a sentinel. -/
theorem to_number_bare (ds : List Char) (hne : ds ≠ [])
    (hds : ds.all Char.isDigit = true) :
    to_number_simple (.pstr ⟨ds⟩) = some ((natOfDigits ds : ℚ)) := by
  have hstrip : pyStrip ((ds.map Char.toLower).filter (fun c => c ≠ ',')) = ds := by
    have h := preprocess_digits ds [] hne hds rfl rfl (Or.inl rfl)
    simpa using h
  have hsent : ∀ l : List Char, l.all Char.isDigit = false → ¬(ds = l) := by
    intro l hl he
    rw [he, hl] at hds
    exact Bool.noConfusion hds
  simp only [to_number_simple]
  simp only [hstrip]
  rw [if_neg (by
    simp only [Bool.or_eq_true, decide_eq_true_eq, not_or]
    exact ⟨⟨⟨hne, hsent _ (by decide)⟩, hsent _ (by decide)⟩,
      hsent _ (by decide)⟩)]
  have hmill := reSearchNumLit_digits_skip ("mill".data) ds hds []
    (by decide) (by simp) (by decide) rfl
  rw [List.append_nil] at hmill
  rw [hmill]
  have hmil := reSearchNumLit_digits_skip ("mil".data) ds hds []
    (by decide) (by simp) (by decide) rfl
  rw [List.append_nil] at hmil
  rw [hmil]
  have hbare := reSearchNum_hit ds [] hne hds (by decide) (by simp)
  rw [List.append_nil] at hbare
  rw [hbare]
  dsimp only
  rw [ratDigits_int]

/-! ## Claim theorems -/

set_option maxRecDepth 1000000

/-- C1 counterexample: an input with two sequential top-level JSON objects
where the recovery returns `None`, not the first object.  The first object
holds a close brace inside a string literal, which derails the depth
counter; both objects are valid strict JSON on their own, so the claim's
premise applies, yet its conclusion fails. -/
theorem analyzer_two_objects_quoted_brace_returns_none :
    jsonLoads ("\x7b\"a\":\"\x7d\"\x7d" : String).data =
      some (.jobj (.ocons "a" (.jstr "\x7d") .onil)) ∧
    jsonLoads ("\x7b\"b\":2\x7d" : String).data =
      some (.jobj (.ocons "b" (.jnum "2") .onil)) ∧
    Analyzer.clean_json_string "\x7b\"a\":\"\x7d\"\x7d\x7b\"b\":2\x7d" = none :=
  ⟨rfl, rfl, rfl⟩

/-- C1 amended: first-valid-wins holds on two sequential canonical
serialisations of well-formed objects (keys and string values made of plain
characters, numbers in canonical literal form): the recovery returns
exactly the first object and never the second. -/
theorem analyzer_first_valid_wins (v1 v2 : JVal) (h1 : wfV v1 = true)
    (ho1 : v1.isObj = true) (h2 : wfV v2 = true) (ho2 : v2.isObj = true) :
    Analyzer.clean_json_string ⟨dumpsV v1 ++ dumpsV v2⟩ = some v1 := by
  have h := clean_recovers [] (dumpsV v2) v1 h1 ho1 (by decide) (by decide)
    (dumpsV_noBacktick v2 h2)
  simpa using h

/-- C1 witness: the spec's own two-object example, recovered as its first
object. -/
theorem analyzer_first_valid_wins_witness :
    Analyzer.clean_json_string "\x7b\"a\": 1\x7d\x7b\"b\": 2\x7d" =
      some (.jobj (.ocons "a" (.jnum "1") .onil)) :=
  analyzer_first_valid_wins (.jobj (.ocons "a" (.jnum "1") .onil))
    (.jobj (.ocons "b" (.jnum "2") .onil)) (by decide) (by decide) (by decide)
    (by decide)

/-- C2 counterexample: a balanced-but-invalid span followed by a balanced
valid span, where an interleaved stray close brace drives the depth counter
negative and the valid second span is never offered to the parser: the
recovery returns `None` instead of the second span's object. -/
theorem analyzer_stray_close_defeats_skip :
    jsonLoads ("\x7ba: 1,\x7d" : String).data = none ∧
    jsonLoads ("\x7b\"a\": 1\x7d" : String).data =
      some (.jobj (.ocons "a" (.jnum "1") .onil)) ∧
    Analyzer.clean_json_string "\x7ba: 1,\x7d \x7d \x7b\"a\": 1\x7d" = none :=
  ⟨rfl, rfl, rfl⟩

/-- C2 amended: skip-and-continue holds at the candidate level: whenever
the scan's candidate sequence is exactly an unparseable span followed by a
parseable one, the recovery returns the second span's value, not a
failure. -/
theorem analyzer_skip_and_continue (s : String) (c1 c2 : List Char) (v : JVal)
    (hc : Analyzer.candidates (pyStrip (Analyzer.stripFences s.data)) = [c1, c2])
    (h1 : jsonLoads c1 = none) (h2 : jsonLoads c2 = some v) :
    Analyzer.clean_json_string s = some v :=
  skip_continue_core s c1 c2 v hc h1 h2

/-- C2 witness: the spec's skip-and-continue scenario without a stray
brace, recovered as the second span's object. -/
theorem analyzer_skip_and_continue_witness :
    Analyzer.candidates (pyStrip (Analyzer.stripFences
        ("\x7ba: 1,\x7d\x7b\"a\": 1\x7d" : String).data)) =
      [("\x7ba: 1,\x7d" : String).data, ("\x7b\"a\": 1\x7d" : String).data] ∧
    jsonLoads ("\x7ba: 1,\x7d" : String).data = none ∧
    jsonLoads ("\x7b\"a\": 1\x7d" : String).data =
      some (.jobj (.ocons "a" (.jnum "1") .onil)) ∧
    Analyzer.clean_json_string "\x7ba: 1,\x7d\x7b\"a\": 1\x7d" =
      some (.jobj (.ocons "a" (.jnum "1") .onil)) :=
  ⟨rfl, rfl, rfl, analyzer_skip_and_continue _ _ _ _ rfl rfl rfl⟩

/-- C3 counterexample: a valid JSON object whose string value holds
backticks; fence stripping deletes them from inside the string literal, so
the recovery returns a different object than a strict parse of the same
input — `recover(s) = parse(s)` fails. -/
theorem analyzer_clean_alters_backtick_string :
    jsonLoads ("\x7b\"a\": \"```\"\x7d" : String).data =
      some (.jobj (.ocons "a" (.jstr "```") .onil)) ∧
    Analyzer.clean_json_string "\x7b\"a\": \"```\"\x7d" =
      some (.jobj (.ocons "a" (.jstr "") .onil)) ∧
    ¬((JVal.jobj (.ocons "a" (.jstr "```") .onil)) =
      (JVal.jobj (.ocons "a" (.jstr "") .onil))) :=
  ⟨rfl, rfl, by decide⟩

/-- C3 amended: identity on clean input holds on canonical serialisations
of well-formed objects: recovery and strict parse return the same value,
the object itself. -/
theorem analyzer_identity_on_canonical_object (v : JVal) (hw : wfV v = true)
    (ho : v.isObj = true) :
    Analyzer.clean_json_string ⟨dumpsV v⟩ = some v ∧
      jsonLoads (dumpsV v) = some v := by
  constructor
  · have h := clean_recovers [] [] v hw ho (by decide) (by decide) (by decide)
    simpa using h
  · exact jsonLoads_dumps v hw

/-- C3 witness: identity on a concrete canonical object. -/
theorem analyzer_identity_on_canonical_object_witness :
    Analyzer.clean_json_string "\x7b\"a\": 1\x7d" =
      some (.jobj (.ocons "a" (.jnum "1") .onil)) ∧
    jsonLoads ("\x7b\"a\": 1\x7d" : String).data =
      some (.jobj (.ocons "a" (.jnum "1") .onil)) :=
  analyzer_identity_on_canonical_object (.jobj (.ocons "a" (.jnum "1") .onil))
    (by decide) (by decide)

/-- C4 counterexample: prose around the fence may contain a brace; an open
brace in the leading prose raises the depth count so the fenced object's
close brace never returns it to zero, no candidate fires, the whole-text
fallback fails, and the recovery returns `None` although the fenced text is
a valid serialised object. -/
theorem analyzer_brace_prose_defeats_fence_recovery :
    jsonLoads ("\x7b\"a\": 1\x7d" : String).data =
      some (.jobj (.ocons "a" (.jnum "1") .onil)) ∧
    Analyzer.clean_json_string "\x7b\n```json\n\x7b\"a\": 1\x7d\n```\nFin." =
      none :=
  ⟨rfl, rfl⟩

/-- C4 amended: the fence/noise round trip holds for brace-free,
backtick-free prose: a canonical well-formed object wrapped in a
```json fence and surrounded by such prose is recovered exactly. -/
theorem analyzer_fence_noise_roundtrip (p1 p2 : List Char) (v : JVal)
    (hw : wfV v = true) (ho : v.isObj = true)
    (h1b : noBacktick p1 = true) (h1f : braceFree p1 = true)
    (h2b : noBacktick p2 = true)
    (hjp : "json".data.isPrefixOf p2 = false) :
    Analyzer.clean_json_string
      ⟨p1 ++ ("```json".data ++
        (('\n' :: (dumpsV v ++ ['\n'])) ++ ("```".data ++ p2)))⟩ = some v :=
  clean_fenced_recovers p1 p2 v hw ho h1b h1f h2b hjp

/-- C4 witness: the spec's concrete scenario, fenced and surrounded by
prose, recovered as its object. -/
theorem analyzer_fence_noise_roundtrip_witness :
    Analyzer.clean_json_string
      "Aquí está tu resultado:\n```json\n\x7b\"nombre\": \"Puente X\", \"presupuesto_total_mxn\": 15000000.0\x7d\n```\nFin." =
      some (.jobj (.ocons "nombre" (.jstr "Puente X")
        (.ocons "presupuesto_total_mxn" (.jnum "15000000.0") .onil))) :=
  analyzer_fence_noise_roundtrip ("Aquí está tu resultado:\n".data)
    ("\nFin.".data)
    (.jobj (.ocons "nombre" (.jstr "Puente X")
      (.ocons "presupuesto_total_mxn" (.jnum "15000000.0") .onil)))
    (by decide) (by decide) (by decide) (by decide) (by decide) (by decide)

/-- C5 counterexample: the three failure classes the spec distinguishes —
no brace at all, an unclosed brace, and balanced-but-malformed candidates —
all produce the same untyped `None`; no `NoJsonFound`, `UnbalancedBraces`
or `MalformedJson` value exists anywhere in the code. -/
theorem analyzer_failures_untyped :
    Analyzer.clean_json_string "hola" = none ∧
    Analyzer.clean_json_string "\x7b\"a\": 1" = none ∧
    Analyzer.clean_json_string "\x7ba: 1,\x7d" = none :=
  ⟨rfl, rfl, rfl⟩

/-- C5 amended: the true half of the claim: with no close brace anywhere in
the input no candidate can fire, so the recovery never returns a silent
partial object — anything it returns comes from the whole-text fallback
parse and is not an object. -/
theorem no_close_brace_never_partial_object (s : String) (v : JVal)
    (hnc : '}' ∉ s.data) (h : Analyzer.clean_json_string s = some v) :
    v.isObj = false := by
  have hnct : '}' ∉ pyStrip (Analyzer.stripFences s.data) := fun hc =>
    hnc (stripFencesGo_subset _ _ (pyStrip_subset _ hc))
  rw [clean_characterization] at h
  rw [Analyzer.candidates, ← scanGo_eq_candGo,
    scanGo_no_close _ _ _ _ _ hnct] at h
  simp only [Option.orElse] at h
  cases hv : v.isObj with
  | false => rfl
  | true => exact absurd (jsonLoads_obj_close _ _ h hv) hnct

/-- C5 witness: an input with an open brace inside a string and no close
brace anywhere; the fallback parse succeeds with a non-object value. -/
theorem no_close_brace_never_partial_object_witness :
    '}' ∉ ("\"\x7b\"" : String).data ∧
    Analyzer.clean_json_string "\"\x7b\"" = some (.jstr "\x7b") ∧
    JVal.isObj (.jstr "\x7b") = false :=
  ⟨by decide, rfl, no_close_brace_never_partial_object "\"\x7b\"" (.jstr "\x7b")
    (by decide) rfl⟩

/-- C6 counterexample: the scraper's recovery raises
`json.JSONDecodeError` (modelled as `Except.error`) on an input with no
JSON at all, so the never-raises policy does not hold for each of the
repository's recovery implementations. -/
theorem scraper_raises_on_no_json :
    Scraper.clean_json_string "hola" =
      Except.error "No se encontró JSON válido" :=
  rfl

/-- C6 amended: the analyzer's recovery never raises: its
exception-explicit model returns `Except.ok` of the plain result on every
input. -/
theorem analyzer_never_raises (s : String) :
    Analyzer.clean_json_stringE s = Except.ok (Analyzer.clean_json_string s) :=
  cleanE_eq_ok s

/-- C7: the numeric normaliser's contract: `None`, empty and sentinel
inputs give `None`; numeric inputs pass through; `<digits> millones…`
scales by one million, `<digits> mil…` by one thousand, for every digit
string; a bare digit string gives its value; a numberless string gives
`None`; and the function is total, so it never raises. -/
theorem to_number_simple_contract :
    to_number_simple .pnone = none ∧
    (∀ i : Int, to_number_simple (.pint i) = some (i : ℚ)) ∧
    (∀ q : ℚ, to_number_simple (.pfloat q) = some q) ∧
    to_number_simple (.pstr "") = none ∧
    to_number_simple (.pstr "null") = none ∧
    to_number_simple (.pstr "none") = none ∧
    to_number_simple (.pstr "-") = none ∧
    (∀ ds : List Char, ds ≠ [] → ds.all Char.isDigit = true →
      to_number_simple (.pstr ⟨ds ++ " millones de pesos".data⟩) =
        some ((natOfDigits ds : ℚ) * 1000000) ∧
      to_number_simple (.pstr ⟨ds ++ " mil pesos".data⟩) =
        some ((natOfDigits ds : ℚ) * 1000) ∧
      to_number_simple (.pstr ⟨ds⟩) = some ((natOfDigits ds : ℚ))) ∧
    to_number_simple (.pstr "abc") = none :=
  ⟨rfl, fun i => rfl, fun q => rfl, rfl, rfl, rfl, rfl,
    fun ds h1 h2 => ⟨to_number_mill ds h1 h2, to_number_mil ds h1 h2,
      to_number_bare ds h1 h2⟩, rfl⟩

/-- C7 witness: the spec's four concrete normaliser examples. -/
theorem to_number_simple_contract_witness :
    to_number_simple (.pstr "15 millones de pesos") = some 15000000 ∧
    to_number_simple (.pstr "500 mil pesos") = some 500000 ∧
    to_number_simple (.pstr "null") = none ∧
    to_number_simple (.pint 7) = some 7 := by
  obtain ⟨h1, h2, h3, h4, h5, h6, h7, h8, h9⟩ := to_number_simple_contract
  refine ⟨?_, ?_, h5, h2 7⟩
  · have h := (h8 ['1', '5'] (by decide) (by decide)).1
    rw [show ("15 millones de pesos" : String) =
      ⟨['1', '5'] ++ " millones de pesos".data⟩ from rfl]
    rw [h, show natOfDigits ['1', '5'] = 15 from rfl]
    norm_num
  · have h := (h8 ['5', '0', '0'] (by decide) (by decide)).2.1
    rw [show ("500 mil pesos" : String) =
      ⟨['5', '0', '0'] ++ " mil pesos".data⟩ from rfl]
    rw [h, show natOfDigits ['5', '0', '0'] = 500 from rfl]
    norm_num

/-- C8: fence stripping removes exactly the fence markers — the analyzer's
`re.sub` deletes the two marker substrings and nothing else, and the
scraper's variant deletes the markers together with the whitespace runs
directly after them — leaving every character of the enclosed content and
the surrounding text unchanged. -/
theorem fence_strippers_preserve_content (a b c : List Char)
    (ha : noBacktick a = true) (hb : noBacktick b = true)
    (hc : noBacktick c = true)
    (hjc : "json".data.isPrefixOf c = false) :
    Analyzer.stripFences (a ++ ("```json".data ++ (b ++ ("```".data ++ c)))) =
      a ++ (b ++ c) ∧
    Scraper.stripBareFence (Scraper.stripJsonFence
        (a ++ ("```json".data ++ (b ++ ("```".data ++ c))))) =
      a ++ (b.dropWhile pyWs ++ c.dropWhile pyWs) :=
  ⟨stripFences_fence a b c ha hb hc hjc, scraper_strip_fence a b c ha hb hc hjc⟩

/-- C8 witness: a concrete fenced block between prose. -/
theorem fence_strippers_preserve_content_witness :
    Analyzer.stripFences (("x: " : String).data ++ ("```json".data ++
        (("\x7b\"a\": 1\x7d" : String).data ++ ("```".data ++ (" end" : String).data)))) =
      ("x: " : String).data ++ (("\x7b\"a\": 1\x7d" : String).data ++ (" end" : String).data) ∧
    Scraper.stripBareFence (Scraper.stripJsonFence (("x: " : String).data ++
        ("```json".data ++ (("\x7b\"a\": 1\x7d" : String).data ++
          ("```".data ++ (" end" : String).data))))) =
      ("x: " : String).data ++ (("\x7b\"a\": 1\x7d" : String).data ++ ("end" : String).data) :=
  fence_strippers_preserve_content _ _ _ (by decide) (by decide) (by decide)
    (by decide)

/-- C9 counterexample: on a wrapped array both implementations succeed with
different values: the analyzer's scan finds the inner object first, while
the scraper's whole-text-first order returns the array. -/
theorem implementations_disagree_on_wrapped_array :
    Analyzer.clean_json_string "[\x7b\"a\": 1\x7d]" =
      some (.jobj (.ocons "a" (.jnum "1") .onil)) ∧
    Scraper.clean_json_string "[\x7b\"a\": 1\x7d]" =
      Except.ok (.jarr (.acons (.jobj (.ocons "a" (.jnum "1") .onil)) .anil)) ∧
    ¬((JVal.jobj (.ocons "a" (.jnum "1") .onil)) =
      (JVal.jarr (.acons (.jobj (.ocons "a" (.jnum "1") .onil)) .anil))) :=
  ⟨rfl, rfl, by decide⟩

/-- C9 amended: the two implementations agree — the scraper returns `ok` of
exactly the analyzer's value, or its error when the analyzer returns
`None` — on backtick-free inputs whose whole-text parse fails and whose
text never closes a brace at depth zero. -/
theorem implementations_agree_when_no_stray (s : String)
    (hb : noBacktick s.data = true)
    (hp : jsonLoads (pyStrip s.data) = none)
    (hn : noStray (pyStrip s.data) = true) :
    Scraper.clean_json_string s =
      (match Analyzer.clean_json_string s with
       | some v => Except.ok v
       | none => Except.error "No se encontró JSON válido") :=
  impls_agree_core s hb hp hn

/-- C9 witness: an input with a junk span before the real object, on which
both implementations recover the same object. -/
theorem implementations_agree_when_no_stray_witness :
    Analyzer.clean_json_string "\x7ba\x7d\x7b\"b\": 2\x7d" =
      some (.jobj (.ocons "b" (.jnum "2") .onil)) ∧
    Scraper.clean_json_string "\x7ba\x7d\x7b\"b\": 2\x7d" =
      Except.ok (.jobj (.ocons "b" (.jnum "2") .onil)) ∧
    Scraper.clean_json_string "\x7ba\x7d\x7b\"b\": 2\x7d" =
      (match Analyzer.clean_json_string "\x7ba\x7d\x7b\"b\": 2\x7d" with
       | some v => Except.ok v
       | none => Except.error "No se encontró JSON válido") :=
  ⟨rfl, rfl, implementations_agree_when_no_stray _ (by decide) rfl rfl⟩

/-- C10: the fallback whole-text parse can return a non-mapping: on an
input whose only content is a JSON array, the scan finds no brace
candidate, the fallback parse succeeds, and the recovery returns a list
value, not a mapping. -/
theorem analyzer_fallback_non_mapping :
    Analyzer.clean_json_string "[1, 2]" =
      some (.jarr (.acons (.jnum "1") (.acons (.jnum "2") .anil))) ∧
    JVal.isObj (.jarr (.acons (.jnum "1") (.acons (.jnum "2") .anil))) = false :=
  ⟨rfl, rfl⟩

end SCB
